import Mathlib

/-
Verification of the tw-editor map container codec
(src/src/map/MapReader.ts, src/src/map/MapExporter.ts,
src/src/map/MinimalMapExporter.ts, src/src/types/map.ts).

Bytes are modelled as natural numbers below 256 and buffers as lists of
bytes.  JavaScript numbers that the code only ever uses as 32-bit
integers are modelled as Int, with the explicit ToInt32 reduction where
the code performs 32-bit operations.  TypeScript strings are modelled as
their UTF-8 byte lists (TextEncoder produces UTF-8).
-/

namespace TwEditor

/-- Little-endian signed 32-bit decoding of four bytes, exactly what
DataView.getInt32 with littleEndian set returns. -/
def decodeI32 (b0 b1 b2 b3 : Nat) : Int :=
  let u : Nat := b0 + 256 * b1 + 65536 * b2 + 16777216 * b3
  if u < 2147483648 then (u : Int) else (u : Int) - 4294967296

/-- Little-endian two-complement encoding of an integer into four bytes,
exactly what DataView.setInt32 with littleEndian set stores. -/
def i32 (v : Int) : List Nat :=
  let u : Nat := (v.emod 4294967296).toNat
  [u % 256, u / 256 % 256, u / 65536 % 256, u / 16777216 % 256]

/-- The ToInt32 conversion of JavaScript: reduce an integer to the
signed 32-bit range. -/
def toInt32 (x : Int) : Int := (x + 2147483648).emod 4294967296 - 2147483648

/-- Arithmetic shift right by 16 of the 32-bit value, the JavaScript
expression x >> 16 (floor division matches the arithmetic shift). -/
def jsShr16 (x : Int) : Int := (toInt32 x).fdiv 65536

/-- Reads the signed little-endian 32-bit value at a byte offset of a
buffer, taking 0 for missing bytes. -/
def int32At (buf : List Nat) (off : Nat) : Int :=
  decodeI32 (buf.getD off 0) (buf.getD (off + 1) 0) (buf.getD (off + 2) 0) (buf.getD (off + 3) 0)

/-- Clamping of one slice index the way ArrayBuffer.slice does it: a
negative index counts from the end, an index past the end is clamped. -/
def jsSliceIndex (len : Nat) (i : Int) : Nat :=
  if i < 0 then ((len : Int) + i).toNat else min i.toNat len

/-- The ArrayBuffer.slice operation of JavaScript: clamping, never
failing, empty when the end index is not past the start index. -/
def jsSlice (buf : List Nat) (b e : Int) : List Nat :=
  let s := jsSliceIndex buf.length b
  let t := jsSliceIndex buf.length e
  (buf.drop s).take (t - s)

/-- Running sums of a list with a start value: output i is the start
value plus the sum of the first i inputs.  This mirrors the
push-then-add offset loops of the exporters. -/
def runningSums (acc : Nat) : List Nat → List Nat
  | [] => []
  | x :: xs => acc :: runningSums (acc + x) xs

/-- Overwrites bytes at an offset of an existing buffer, keeping the
length; only used at call sites that have checked the bounds. -/
def storeBytes (buf : List Nat) (off : Nat) (bs : List Nat) : List Nat :=
  buf.take off ++ bs ++ buf.drop (off + bs.length)

/- ------------------------------------------------------------------
Data model, mirroring src/src/types/map.ts.
------------------------------------------------------------------ -/

/-- Mirror of the MapHeader interface. -/
structure MapHeader where
  signature : List Nat
  version : Int
  size : Int
  swapLen : Int
  numItemTypes : Int
  numItems : Int
  numData : Int
  itemSize : Int
  dataSize : Int
deriving Repr, DecidableEq

/-- Mirror of the ItemTypeInfo interface. -/
structure ItemTypeInfo where
  typeId : Int
  start : Int
  num : Int
deriving Repr, DecidableEq

/-- Mirror of the Tile interface; the four fields are stored as single
bytes on export. -/
structure Tile where
  id : Nat
  flags : Nat
  skip : Nat
  reserved : Nat
deriving Repr, DecidableEq

/-- Fields of the InfoItem interface; strings are UTF-8 byte lists. -/
structure InfoFields where
  author : List Nat
  version : List Nat
  credits : List Nat
  license : List Nat
  settings : List (List Nat)
deriving Repr, DecidableEq

/-- Fields of the ImageItem interface. -/
structure ImageFields where
  width : Int
  height : Int
  isExternal : Bool
  name : List Nat
  dataIdx : Int
deriving Repr, DecidableEq

/-- Fields of the GroupItem interface. -/
structure GroupFields where
  offsetX : Int
  offsetY : Int
  parallaxX : Int
  parallaxY : Int
  startLayer : Int
  numLayers : Int
  useClipping : Int
  clipX : Int
  clipY : Int
  clipW : Int
  clipH : Int
  name : List Nat
deriving Repr, DecidableEq

/-- Fields of the TileLayerItem interface.  The editor always populates
tileData on tile layers, so it is a plain list here; width and height
come from the editor as non-negative integers. -/
structure TileLayerFields where
  type : Int
  flags : Int
  version : Int
  width : Nat
  height : Nat
  colorR : Int
  colorG : Int
  colorB : Int
  colorA : Int
  colorEnv : Int
  colorEnvOffset : Int
  image : Int
  dataIdx : Int
  tileData : List Tile
  name : List Nat
deriving Repr, DecidableEq

/-- The union type of the parsed field of MapItem. -/
inductive Parsed where
  | versionItem (version : Int)
  | infoItem (f : InfoFields)
  | imageItem (f : ImageFields)
  | groupItem (f : GroupFields)
  | tileLayerItem (f : TileLayerFields)
deriving Repr, DecidableEq

/-- Mirror of the MapItem interface (the typeAndId field is produced by
MapReader.readItem and consumed by the exporter). -/
structure MapItem where
  typeAndId : Int
  size : Int
  data : List Nat
  parsed : Option Parsed
deriving Repr, DecidableEq

/-- Mirror of the MapData interface. -/
structure MapData where
  header : MapHeader
  itemTypes : List ItemTypeInfo
  itemOffsets : List Int
  dataOffsets : List Int
  dataSizes : Option (List Int)
  items : List MapItem
  data : List (List Nat)
deriving Repr, DecidableEq

/-- Default item used for list indexing in statements. -/
def mapItemDefault : MapItem := { typeAndId := 0, size := 0, data := [], parsed := none }

/-- The expression item.typeAndId >> 16 used throughout the codec to
recover the item type. -/
def itemTypeOf (it : MapItem) : Int := jsShr16 it.typeAndId

/- ------------------------------------------------------------------
Reader, mirroring src/src/map/MapReader.ts.  The mutable offset of the
class is modelled by explicit cursor passing; a DataView access outside
the buffer throws a RangeError, modelled by the outOfBounds error.
------------------------------------------------------------------ -/

/-- Errors the reader can raise. -/
inductive ReadErr where
  | invalidSignature
  | outOfBounds
deriving Repr, DecidableEq

def sigDATA : List Nat := [68, 65, 84, 65]

def sigATAD : List Nat := [65, 84, 65, 68]

/-- Mirror of MapReader.isValidSignature: the four signature bytes must
equal the tag DATA forward or byte-reversed. -/
def isValidSignature (sig : List Nat) : Bool :=
  sig == sigDATA || sig == sigATAD

/-- Mirror of MapReader.readInt32: little-endian signed read advancing
four bytes; out of bounds throws. -/
def readInt32 (buf : List Nat) (pos : Int) : Except ReadErr (Int × Int) :=
  if 0 ≤ pos ∧ pos + 4 ≤ (buf.length : Int) then
    .ok (int32At buf pos.toNat, pos + 4)
  else .error .outOfBounds

/-- Mirror of MapReader.readHeader. -/
def readHeaderE (buf : List Nat) (pos : Int) : Except ReadErr (MapHeader × Int) := do
  if 0 ≤ pos ∧ pos + 4 ≤ (buf.length : Int) then
    let sig := jsSlice buf pos (pos + 4)
    if isValidSignature sig then
      let (version, p1) ← readInt32 buf (pos + 4)
      let (size, p2) ← readInt32 buf p1
      let (swapLen, p3) ← readInt32 buf p2
      let (numItemTypes, p4) ← readInt32 buf p3
      let (numItems, p5) ← readInt32 buf p4
      let (numData, p6) ← readInt32 buf p5
      let (itemSize, p7) ← readInt32 buf p6
      let (dataSize, p8) ← readInt32 buf p7
      .ok (⟨sig, version, size, swapLen, numItemTypes, numItems, numData, itemSize, dataSize⟩, p8)
    else
      .error .invalidSignature
  else
    .error .outOfBounds

/-- Mirror of MapReader.readOffsets: a row of count little-endian
reads. -/
def readOffsets (buf : List Nat) : Nat → Int → Except ReadErr (List Int × Int)
  | 0, pos => .ok ([], pos)
  | n + 1, pos => do
    let (v, p1) ← readInt32 buf pos
    let (vs, p2) ← readOffsets buf n p1
    .ok (v :: vs, p2)

/-- Mirror of MapReader.readItemType. -/
def readItemTypeE (buf : List Nat) (pos : Int) : Except ReadErr (ItemTypeInfo × Int) := do
  let (typeId, p1) ← readInt32 buf pos
  let (start, p2) ← readInt32 buf p1
  let (num, p3) ← readInt32 buf p2
  .ok (⟨typeId, start, num⟩, p3)

/-- The item-type loop of MapReader.read. -/
def readItemTypes (buf : List Nat) : Nat → Int → Except ReadErr (List ItemTypeInfo × Int)
  | 0, pos => .ok ([], pos)
  | n + 1, pos => do
    let (t, p1) ← readItemTypeE buf pos
    let (ts, p2) ← readItemTypes buf n p1
    .ok (t :: ts, p2)

/-- Mirror of MapReader.readItem: two reads then a clamping slice of
size bytes (ArrayBuffer.slice never throws). -/
def readItemE (buf : List Nat) (pos : Int) : Except ReadErr (MapItem × Int) := do
  let (typeAndId, p1) ← readInt32 buf pos
  let (size, p2) ← readInt32 buf p1
  let d := jsSlice buf p2 (p2 + size)
  .ok ({ typeAndId := typeAndId, size := size, data := d, parsed := none }, p2 + size)

/-- The item loop of MapReader.read. -/
def readItems (buf : List Nat) : Nat → Int → Except ReadErr (List MapItem × Int)
  | 0, pos => .ok ([], pos)
  | n + 1, pos => do
    let (it, p1) ← readItemE buf pos
    let (its, p2) ← readItems buf n p1
    .ok (it :: its, p2)

/-- The compressed size assigned to data block i by MapReader.read: the
distance to the next data offset, or dataSize minus the own offset for
the last block. -/
def blockSize (offs : List Int) (dataSize numData : Int) (i : Nat) : Int :=
  if (i : Int) < numData - 1 then offs.getD (i + 1) 0 - offs.getD i 0
  else dataSize - offs.getD i 0

/-- The data-block loop of MapReader.read together with
MapReader.readData: block i is a clamping slice of its computed size and
the cursor advances by exactly that size; no failure is possible. -/
def readDataBlocks (buf : List Nat) (offs : List Int) (dataSize numData : Int) :
    Nat → Nat → Int → (List (List Nat) × Int)
  | 0, _, pos => ([], pos)
  | fuel + 1, i, pos =>
    let sz := blockSize offs dataSize numData i
    let d := jsSlice buf pos (pos + sz)
    let (rest, p2) := readDataBlocks buf offs dataSize numData fuel (i + 1) (pos + sz)
    (d :: rest, p2)

/-- Mirror of MapReader.read. -/
def readMap (buf : List Nat) : Except ReadErr MapData := do
  let (header, p0) ← readHeaderE buf 0
  let (itemTypes, p1) ← readItemTypes buf header.numItemTypes.toNat p0
  let (itemOffsets, p2) ← readOffsets buf header.numItems.toNat p1
  let (dataOffsets, p3) ← readOffsets buf header.numData.toNat p2
  let (dataSizes, p4) ←
    if header.version == 4 then do
      let (l, p) ← readOffsets buf header.numData.toNat p3
      Except.ok ((some l : Option (List Int)), p)
    else Except.ok ((none : Option (List Int)), p3)
  let (items, p5) ← readItems buf header.numItems.toNat p4
  let (data, _) := readDataBlocks buf dataOffsets header.dataSize header.numData header.numData.toNat 0 p5
  .ok { header := header, itemTypes := itemTypes, itemOffsets := itemOffsets,
        dataOffsets := dataOffsets, dataSizes := dataSizes, items := items, data := data }

/- ------------------------------------------------------------------
Exporter, mirroring src/src/map/MapExporter.ts.  The exporter writes
into a DataView over a pre-sized zero-filled ArrayBuffer; the header and
the four tables are written strictly sequentially from offset 0, which
is modelled as list concatenation, while the item records and the
compressed blocks are written at computed offsets inside the remaining
region, which is modelled as bounds-checked stores (a DataView or typed
array access past the end of the buffer throws a RangeError).
------------------------------------------------------------------ -/

/-- Error raised by an out-of-bounds DataView or typed-array write. -/
inductive WriteErr where
  | rangeError
deriving Repr, DecidableEq

/-- Mirror of the TypeScript test (field in item.parsed) for the field
name version: present on VersionItem, InfoItem and TileLayerItem (the
optional version of ImageItem is never set by the editor). -/
def hasVersionField : Parsed → Bool
  | .versionItem _ => true
  | .infoItem _ => true
  | .tileLayerItem _ => true
  | _ => false

/-- Mirror of the test (width in item.parsed): present on ImageItem and
TileLayerItem. -/
def hasWidthField : Parsed → Bool
  | .imageItem _ => true
  | .tileLayerItem _ => true
  | _ => false

/-- Mirror of the test (offsetX in item.parsed): present on GroupItem
only. -/
def hasOffsetXField : Parsed → Bool
  | .groupItem _ => true
  | _ => false

/-- Mirror of the test (tileData in item.parsed): present on
TileLayerItem only. -/
def hasTileDataField : Parsed → Bool
  | .tileLayerItem _ => true
  | _ => false

/-- Mirror of the test (name in item.parsed): present on ImageItem,
GroupItem and TileLayerItem. -/
def hasNameField : Parsed → Bool
  | .imageItem _ => true
  | .groupItem _ => true
  | .tileLayerItem _ => true
  | _ => false

/-- The name field of a parsed payload where present. -/
def parsedName : Parsed → List Nat
  | .imageItem f => f.name
  | .groupItem f => f.name
  | .tileLayerItem f => f.name
  | _ => []

/-- The width field of a parsed payload where present. -/
def parsedWidth : Parsed → Int
  | .imageItem f => f.width
  | .tileLayerItem f => (f.width : Int)
  | _ => 0

/-- The height field of a parsed payload where present. -/
def parsedHeight : Parsed → Int
  | .imageItem f => f.height
  | .tileLayerItem f => (f.height : Int)
  | _ => 0

/-- Mirror of MapExporter.calculateItemDataSize: the payload length of
an item in 4-byte words. -/
def calculateItemDataSize (item : MapItem) : Nat :=
  match item.parsed with
  | none => 0
  | some p =>
    let t := itemTypeOf item
    if t = 0 then 1
    else if t = 1 then 6
    else if t = 2 then (if hasWidthField p then 6 else 0)
    else if t = 4 then (if hasOffsetXField p then 15 else 0)
    else if t = 5 then (if hasTileDataField p then 20 else 0)
    else 0

/-- The synthesized Version item of MapExporter.prepareMapData. -/
def versionItem0 : MapItem :=
  { typeAndId := 0, size := 4, data := List.replicate 4 0, parsed := some (.versionItem 1) }

/-- The synthesized Info item of MapExporter.prepareMapData; its version
string is the one-character string 1. -/
def infoItem0 : MapItem :=
  { typeAndId := 65536, size := 24, data := List.replicate 24 0,
    parsed := some (.infoItem { author := [], version := [49], credits := [], license := [], settings := [] }) }

/-- The synthesized Envpoint item of MapExporter.prepareMapData. -/
def envpointItem0 : MapItem :=
  { typeAndId := 393216, size := 0, data := [], parsed := none }

/-- One step of the typeMap bookkeeping in MapExporter.prepareMapData: a
known type has its count bumped in place, a new type is appended with
the current index as start. -/
def addItemType (acc : List (Int × Nat × Nat)) (t : Int) (idx : Nat) : List (Int × Nat × Nat) :=
  if acc.any (fun e => e.1 == t) then
    acc.map (fun e => if e.1 == t then (e.1, e.2.1, e.2.2 + 1) else e)
  else acc ++ [(t, idx, 1)]

/-- The forEach loop over items in MapExporter.prepareMapData, building
the insertion-ordered typeMap entries. -/
def buildTypeEntries (acc : List (Int × Nat × Nat)) (idx : Nat) : List MapItem → List (Int × Nat × Nat)
  | [] => acc
  | it :: rest => buildTypeEntries (addItemType acc (itemTypeOf it) idx) (idx + 1) rest

/-- Mirror of MapExporter.prepareMapData: prepend the Version and Info
items, append the Envpoint item, then rebuild the item-type table from
first-occurrence indexes and counts, sorted ascending by typeId.  The
source sorts with the numeric comparator of Array.prototype.sort; since
the keys are pairwise distinct the result is the unique ascending
reordering, realized here by insertion sort. -/
def prepareMapData (mapData : MapData) : MapData :=
  let items := versionItem0 :: infoItem0 :: (mapData.items ++ [envpointItem0])
  let entries := (buildTypeEntries [] 0 items).insertionSort (fun a b => a.1 ≤ b.1)
  let itemTypes := entries.map (fun e =>
    ({ typeId := e.1, start := (e.2.1 : Int), num := (e.2.2 : Int) } : ItemTypeInfo))
  { mapData with items := items, itemTypes := itemTypes }

/-- The four bytes stored for one tile; a typed-array store reduces the
value modulo 256. -/
def tileBytes (t : Tile) : List Nat :=
  [t.id % 256, t.flags % 256, t.skip % 256, t.reserved % 256]

/-- A store into a typed array: element stores outside the array are
silently ignored. -/
def storeClamped (buf : List Nat) (off : Nat) (bs : List Nat) : List Nat :=
  if off + bs.length ≤ buf.length then storeBytes buf off bs else buf

/-- The tile-writing loop of MapExporter.exportMap: tile i goes to byte
offset i*4. -/
def writeTiles (buf : List Nat) (i : Nat) : List Tile → List Nat
  | [] => buf
  | t :: ts => writeTiles (storeClamped buf (i * 4) (tileBytes t)) (i + 1) ts

/-- The per-layer data block construction of MapExporter.exportMap: a
zero-filled buffer of width*height*4 bytes with tile i stored at byte
offset i*4. -/
def encodeTileData (width height : Nat) (tiles : List Tile) : List Nat :=
  writeTiles (List.replicate (width * height * 4) 0) 0 tiles

/-- The image-name block construction of MapExporter.exportMap: one
block per Image item, holding the UTF-8 bytes of the name followed by a
null byte. -/
def exportImageData (items : List MapItem) : List (List Nat) :=
  (items.filter (fun it => itemTypeOf it == 2)).map (fun it =>
    match it.parsed with
    | some p => if hasNameField p then parsedName p ++ [0] else []
    | none => [])

/-- The tile-layer data block loop of MapExporter.exportMap. -/
def exportLayerData (items : List MapItem) : List (List Nat) :=
  items.filterMap (fun it =>
    match it.parsed with
    | some (.tileLayerItem f) =>
      if itemTypeOf it == 5 then some (encodeTileData f.width f.height f.tileData) else none
    | _ => none)

/-- The full data array of MapExporter.exportMap: image name blocks
first, then one block per tile layer. -/
def exportDataList (items : List MapItem) : List (List Nat) :=
  exportImageData items ++ exportLayerData items

/-- The per-item byte sizes of MapExporter.exportMap (payload words
times 4). -/
def exportItemSizes (items : List MapItem) : List Nat :=
  items.map (fun it => calculateItemDataSize it * 4)

/-- The item offsets of MapExporter.exportMap: running sums of the
payload sizes alone (the 8 framing bytes are not added). -/
def exportItemOffsets (items : List MapItem) : List Nat :=
  runningSums 0 (exportItemSizes items)

/-- The data offsets of MapExporter.exportMap: running sums of the
compressed block lengths. -/
def exportDataOffsets (blocks : List (List Nat)) : List Nat :=
  runningSums 0 (blocks.map List.length)

/-- The item area size of MapExporter.exportMap, the final value of
currentItemOffset. -/
def itemAreaSizeOf (items : List MapItem) : Nat :=
  (exportItemSizes items).sum

/-- The data area size of MapExporter.exportMap, the final value of
currentDataOffset. -/
def dataAreaSizeOf (blocks : List (List Nat)) : Nat :=
  (blocks.map List.length).sum

/-- The metadata size of MapExporter.exportMap: header plus item-type
table plus the three offset and size tables. -/
def headerAndMetadataSizeOf (mapCopy : MapData) (nBlocks : Nat) : Nat :=
  36 + mapCopy.itemTypes.length * 12 + mapCopy.items.length * 4 + nBlocks * 4 + nBlocks * 4

/-- The 36 header bytes written sequentially by MapExporter.exportMap:
the DATA signature then eight int32 fields. -/
def mkHeaderBytes (version size swapLen numItemTypes numItems numData itemSize dataSize : Int) : List Nat :=
  sigDATA ++ i32 version ++ i32 size ++ i32 swapLen ++ i32 numItemTypes ++ i32 numItems ++
    i32 numData ++ i32 itemSize ++ i32 dataSize

/-- The item-type table bytes written by MapExporter.exportMap. -/
def itemTypeTableBytes (itemTypes : List ItemTypeInfo) : List Nat :=
  itemTypes.flatMap (fun e => i32 e.typeId ++ i32 e.start ++ i32 e.num)

/-- The uncompressed-length table written by MapExporter.exportMap: one
int32 per data block holding its uncompressed byte length. -/
def dataSizeTableBytes (data : List (List Nat)) : List Nat :=
  data.flatMap (fun d => i32 (d.length : Int))

/-- The 36 header bytes of MapExporter.exportMap for a given prepared
document and compressed block list: version constant 4, size and
swaplen and the two area sizes recomputed from the serialized body. -/
def exportHeaderBytes (mapCopy : MapData) (compressedData : List (List Nat)) : List Nat :=
  let itemAreaSize := itemAreaSizeOf mapCopy.items
  let dataAreaSize := dataAreaSizeOf compressedData
  let headerAndMetadataSize := headerAndMetadataSizeOf mapCopy compressedData.length
  let totalSize := headerAndMetadataSize + itemAreaSize + dataAreaSize
  mkHeaderBytes 4 ((totalSize : Int) - 16) ((headerAndMetadataSize : Int) + (itemAreaSize : Int) - 16)
    (mapCopy.itemTypes.length : Int) (mapCopy.items.length : Int) (compressedData.length : Int)
    (itemAreaSize : Int) (dataAreaSize : Int)

/-- The item-type, item-offset and data-offset tables written by
MapExporter.exportMap directly after the header. -/
def exportTablesBytes (mapCopy : MapData) (compressedData : List (List Nat)) : List Nat :=
  itemTypeTableBytes mapCopy.itemTypes
    ++ (exportItemOffsets mapCopy.items).flatMap (fun o => i32 (o : Int))
    ++ (exportDataOffsets compressedData).flatMap (fun o => i32 (o : Int))

/-- All bytes written sequentially before the item area by
MapExporter.exportMap: header, item-type table, item offsets, data
offsets, uncompressed sizes. -/
def exportMetadataBytes (mapCopy : MapData) (data compressedData : List (List Nat)) : List Nat :=
  exportHeaderBytes mapCopy compressedData ++ exportTablesBytes mapCopy compressedData
    ++ dataSizeTableBytes data

/-- The payload int32 words written by the item switch of
MapExporter.exportMap (lines 174 to 295); note the Layer case writes 22
words although calculateItemDataSize declares 20. -/
def itemPayloadWords (imageDataLen numItems layerCount index : Nat) (imageIdx : Nat)
    (item : MapItem) : List Int :=
  match item.parsed with
  | none => []
  | some p =>
    let t := itemTypeOf item
    if t = 0 then (if hasVersionField p then [1] else [])
    else if t = 1 then (if hasVersionField p then [1, -1, -1, -1, -1, -1] else [])
    else if t = 2 then
      (if hasWidthField p then
        [1, parsedWidth p, parsedHeight p, 1, (imageIdx : Int), (imageIdx : Int)]
      else [])
    else if t = 4 then
      (match p with
       | .groupItem f =>
         [3, f.offsetX, f.offsetY, f.parallaxX, f.parallaxY, f.startLayer, f.numLayers,
          f.useClipping, f.clipX, f.clipY, f.clipW, f.clipH, -1, -1, -1]
       | _ => [])
    else if t = 5 then
      (match p with
       | .tileLayerItem f =>
         let layerIdx : Int := (imageDataLen : Int) + ((index : Int) - ((numItems : Int) - (layerCount : Int)))
         [3, f.type, f.flags, (f.width : Int), (f.height : Int), f.flags,
          f.colorR, f.colorG, f.colorB, f.colorA, -1, 0, f.image, layerIdx,
          -1, -1, -1, -1, -1, -1, -1, -1]
       | _ => [])
    else []

/-- The record bytes for one item as written by MapExporter.exportMap
lines 161 to 296: typeAndId, then the size field holding
itemSizes[index] / 4, then the payload words. -/
def itemRecordBytes (imageDataLen numItems layerCount index : Nat) (imageIdx : Nat)
    (item : MapItem) : List Nat :=
  i32 item.typeAndId ++ i32 ((calculateItemDataSize item * 4 / 4 : Nat) : Int) ++
    (itemPayloadWords imageDataLen numItems layerCount index imageIdx item).flatMap i32

/-- The item records of MapExporter.exportMap paired with their write
offsets inside the region following the metadata; the image index of an
Image item counts the Image items before it, which is what the
reference-equality findIndex over the filtered list computes. -/
def exportRecordList (mapCopy : MapData) (imageDataLen layerCount : Nat) : List (Nat × List Nat) :=
  mapCopy.items.enum.map (fun p =>
    ((exportItemOffsets mapCopy.items).getD p.1 0,
     itemRecordBytes imageDataLen mapCopy.items.length layerCount p.1
       ((mapCopy.items.take p.1).countP (fun x => itemTypeOf x == 2)) p.2))

/-- The compressed data blocks of MapExporter.exportMap paired with
their write offsets inside the region following the metadata. -/
def exportDataRecordList (itemAreaSize : Nat) (compressedData : List (List Nat)) : List (Nat × List Nat) :=
  compressedData.enum.map (fun p =>
    (itemAreaSize + (exportDataOffsets compressedData).getD p.1 0, p.2))

/-- A sequence of bounds-checked writes into a region: each DataView or
typed-array write past the end of the buffer throws a RangeError. -/
def writeRecords (region : List Nat) : List (Nat × List Nat) → Except WriteErr (List Nat)
  | [] => .ok region
  | r :: rest =>
    if r.1 + r.2.length ≤ region.length then writeRecords (storeBytes region r.1 r.2) rest
    else .error .rangeError

/-- Mirror of MapExporter.exportMap with the DEFLATE compressor (pako)
passed as an opaque function; returns the produced buffer, or the
RangeError that a write past the end of the pre-sized buffer throws. -/
def exportMap (compress : List Nat → List Nat) (mapData : MapData) : Except WriteErr (List Nat) :=
  let mapCopy := prepareMapData mapData
  let imageData := exportImageData mapCopy.items
  let data := exportDataList mapCopy.items
  let compressedData := data.map compress
  let layerCount := (exportLayerData mapCopy.items).length
  let itemAreaSize := itemAreaSizeOf mapCopy.items
  let dataAreaSize := dataAreaSizeOf compressedData
  let region := List.replicate (itemAreaSize + dataAreaSize) 0
  match writeRecords region (exportRecordList mapCopy imageData.length layerCount) with
  | .error e => .error e
  | .ok region1 =>
    match writeRecords region1 (exportDataRecordList itemAreaSize compressedData) with
    | .error e => .error e
    | .ok region2 => .ok (exportMetadataBytes mapCopy data compressedData ++ region2)

/-- Modelled from the spec: the tile-grid decoder of section 4.6 is
absent from the analyzed sources (MapReader never decodes tile blocks);
the spec fixes 4 bytes per cell (id, flags, skip, reserved) in row-major
order, decode being the exact inverse of encode. -/
def decodeTileData : List Nat → List Tile
  | a :: b :: c :: d :: rest => ⟨a, b, c, d⟩ :: decodeTileData rest
  | _ => []

/- ------------------------------------------------------------------
Concrete inputs used by the theorems below.
------------------------------------------------------------------ -/

/-- A default header (the exporter never reads the header of its
input). -/
def dummyHeader : MapHeader :=
  { signature := [68, 65, 84, 65], version := 4, size := 0, swapLen := 0,
    numItemTypes := 0, numItems := 0, numData := 0, itemSize := 0, dataSize := 0 }

/-- The empty, trivially well-formed container. -/
def emptyMapData : MapData :=
  { header := dummyHeader, itemTypes := [], itemOffsets := [], dataOffsets := [],
    dataSizes := none, items := [], data := [] }

/-- A 2 by 1 tile grid with two tiles. -/
def tiles21 : List Tile := [⟨1, 0, 0, 0⟩, ⟨2, 0, 0, 0⟩]

/-- One editor-made tile layer item over tiles21. -/
def tileLayerItem4 : MapItem :=
  { typeAndId := 327680, size := 0, data := [],
    parsed := some (.tileLayerItem
      { type := 2, flags := 0, version := 3, width := 2, height := 1,
        colorR := 255, colorG := 255, colorB := 255, colorA := 255,
        colorEnv := -1, colorEnvOffset := 0, image := -1, dataIdx := 0,
        tileData := tiles21, name := [] }) }

/-- A container holding one tile layer. -/
def mapData4 : MapData := { emptyMapData with items := [tileLayerItem4] }

/-- The encoded tile block of mapData4. -/
def grid4 : List Nat := encodeTileData 2 1 tiles21

/-- A 36-byte buffer with a valid signature and header version 5, all
counts zero. -/
def bufV5 : List Nat :=
  sigDATA ++ i32 5 ++ i32 0 ++ i32 0 ++ i32 0 ++ i32 0 ++ i32 0 ++ i32 0 ++ i32 0

/-- A 36-byte buffer with a valid signature and header version 4, all
counts zero. -/
def bufV4 : List Nat :=
  sigDATA ++ i32 4 ++ i32 0 ++ i32 0 ++ i32 0 ++ i32 0 ++ i32 0 ++ i32 0 ++ i32 0

/-- A bare layer-typed item with the given instance id and no parsed
payload. -/
def bareLayerItem (n : Int) : MapItem :=
  { typeAndId := 327680 + n, size := 0, data := [], parsed := none }

/-- A bare image-typed item with the given instance id and no parsed
payload. -/
def bareImageItem (n : Int) : MapItem :=
  { typeAndId := 131072 + n, size := 0, data := [], parsed := none }

/-- A bare envpoint-typed item with the given instance id. -/
def bareEnvpointItem (n : Int) : MapItem :=
  { typeAndId := 393216 + n, size := 0, data := [], parsed := none }

/-- Editor items interleaving the Layer and Image types, not grouped by
type. -/
def ungroupedInput : MapData :=
  { emptyMapData with items := [bareLayerItem 0, bareImageItem 0, bareLayerItem 1] }

/-- Editor items already containing an Envpoint item. -/
def inputWithEnvpoint : MapData :=
  { emptyMapData with items := [bareEnvpointItem 1] }

/- ------------------------------------------------------------------
C1.  Round-trip.
------------------------------------------------------------------ -/

/-- C1: the claimed round-trip parse(serialize(doc)) = doc fails
already because serialization is not total: on the empty well-formed
container, MapExporter.exportMap throws a RangeError for every choice of
compressor.  The item offsets (and with them the item-area size and the
buffer size) account only for the payload bytes of each item, while each
record is written with its additional 8 framing bytes, so the Info and
Envpoint records are written past the end of the pre-sized buffer and
DataView.setInt32 throws; no buffer exists for MapReader.read to
recover. -/
theorem c1_export_of_empty_crashes (compress : List Nat → List Nat) :
    exportMap compress emptyMapData = .error .rangeError := rfl

/-- C1 witness: the identity stand-in for the compressor. -/
theorem c1_export_of_empty_crashes_witness :
    exportMap (fun bs => bs) emptyMapData = .error .rangeError :=
  c1_export_of_empty_crashes (fun bs => bs)

/- ------------------------------------------------------------------
C3.  Offset tables.
------------------------------------------------------------------ -/

/-- C3: on the empty container the prepared item list is Version, Info,
Envpoint with payload sizes 4, 24, 0, and MapExporter computes the item
offsets [0, 4, 28], accumulating only the payload sizes, whereas the
claimed running sum of 8 + payload per item is [0, 12, 44]; the two
tables differ.  The data-offset half of the claim does hold: data
offsets are running sums of the compressed block lengths, as the
concrete block list [[1,2,3],[4,5]] with offsets [0, 3] shows. -/
theorem c3_item_offsets_drop_framing :
    exportItemOffsets (prepareMapData emptyMapData).items = [0, 4, 28] ∧
    runningSums 0 ((exportItemSizes (prepareMapData emptyMapData).items).map (fun s => 8 + s)) =
      [0, 12, 44] ∧
    ([0, 4, 28] : List Nat) ≠ [0, 12, 44] ∧
    exportDataOffsets [[1, 2, 3], [4, 5]] = [0, 3] := by
  refine ⟨rfl, rfl, by decide, rfl⟩

/- ------------------------------------------------------------------
C2.  Tile grid codec.
------------------------------------------------------------------ -/

theorem prepareMapData_items (md : MapData) :
    (prepareMapData md).items = versionItem0 :: infoItem0 :: (md.items ++ [envpointItem0]) := rfl

theorem tileBytes_length (t : Tile) : (tileBytes t).length = 4 := rfl

theorem storeBytes_length (buf : List Nat) (off : Nat) (bs : List Nat)
    (h : off + bs.length ≤ buf.length) : (storeBytes buf off bs).length = buf.length := by
  simp [storeBytes]
  omega

theorem writeTiles_eq (tiles : List Tile) : ∀ (buf : List Nat) (i : Nat),
    buf.length = i * 4 + tiles.length * 4 →
    writeTiles buf i tiles = buf.take (i * 4) ++ tiles.flatMap tileBytes := by
  induction tiles with
  | nil =>
    intro buf i h
    have hle : buf.length ≤ i * 4 := by
      simp only [List.length_nil, Nat.zero_mul, Nat.add_zero] at h
      omega
    simp [writeTiles, List.take_of_length_le hle]
  | cons t ts ih =>
    intro buf i h
    have hcount : buf.length = i * 4 + ts.length * 4 + 4 := by
      simp only [List.length_cons] at h
      omega
    have hb4 : i * 4 + 4 ≤ buf.length := by omega
    have hstore : storeClamped buf (i * 4) (tileBytes t) =
        buf.take (i * 4) ++ tileBytes t ++ buf.drop (i * 4 + 4) := by
      simp only [storeClamped, storeBytes, tileBytes_length]
      rw [if_pos hb4]
    have h1 : (buf.take (i * 4)).length = i * 4 := by
      rw [List.length_take]
      omega
    have hlen : (buf.take (i * 4) ++ tileBytes t ++ buf.drop (i * 4 + 4)).length =
        (i + 1) * 4 + ts.length * 4 := by
      simp only [List.length_append, List.length_drop, tileBytes_length, h1]
      omega
    have hrec := ih (buf.take (i * 4) ++ tileBytes t ++ buf.drop (i * 4 + 4)) (i + 1) hlen
    have h2 : (buf.take (i * 4) ++ tileBytes t).length = (i + 1) * 4 := by
      simp only [List.length_append, tileBytes_length, h1]
      ring
    have htake : (buf.take (i * 4) ++ tileBytes t ++ buf.drop (i * 4 + 4)).take ((i + 1) * 4) =
        buf.take (i * 4) ++ tileBytes t := by
      have h3 := List.take_left (buf.take (i * 4) ++ tileBytes t) (buf.drop (i * 4 + 4))
      rw [h2] at h3
      exact h3
    calc writeTiles buf i (t :: ts)
        = writeTiles (storeClamped buf (i * 4) (tileBytes t)) (i + 1) ts := rfl
      _ = writeTiles (buf.take (i * 4) ++ tileBytes t ++ buf.drop (i * 4 + 4)) (i + 1) ts := by
            rw [hstore]
      _ = (buf.take (i * 4) ++ tileBytes t ++ buf.drop (i * 4 + 4)).take ((i + 1) * 4) ++
            ts.flatMap tileBytes := hrec
      _ = (buf.take (i * 4) ++ tileBytes t) ++ ts.flatMap tileBytes := by rw [htake]
      _ = buf.take (i * 4) ++ (t :: ts).flatMap tileBytes := by simp

theorem encodeTileData_eq_flat (width height : Nat) (tiles : List Tile)
    (hlen : tiles.length = width * height) :
    encodeTileData width height tiles = tiles.flatMap tileBytes := by
  have h := writeTiles_eq tiles (List.replicate (width * height * 4) 0) 0
    (by simp [hlen])
  simpa [encodeTileData] using h

theorem decode_flat (tiles : List Tile)
    (hwf : ∀ t ∈ tiles, t.id < 256 ∧ t.flags < 256 ∧ t.skip < 256 ∧ t.reserved < 256) :
    decodeTileData (tiles.flatMap tileBytes) = tiles := by
  induction tiles with
  | nil => rfl
  | cons t ts ih =>
    obtain ⟨h1, h2, h3, h4⟩ := hwf t (by simp)
    have hrest := ih (fun u hu => hwf u (by simp [hu]))
    obtain ⟨tid, tflags, tskip, tres⟩ := t
    show decodeTileData (tid % 256 :: tflags % 256 :: tskip % 256 :: tres % 256 ::
      ts.flatMap tileBytes) = _
    simp only [decodeTileData, hrest]
    simp [Nat.mod_eq_of_lt h1, Nat.mod_eq_of_lt h2, Nat.mod_eq_of_lt h3, Nat.mod_eq_of_lt h4]

/-- C2: for a tile grid whose cell list has length width*height and
whose cell fields are bytes, the encoder of MapExporter.exportMap
produces exactly width*height*4 bytes, laid out as the row-major
concatenation of the 4 bytes (id, flags, skip, reserved) of each cell,
and the decoder recovers the grid with every field, in particular every
flag bit, unchanged. -/
theorem c2_tile_grid_roundtrip (width height : Nat) (tiles : List Tile)
    (hlen : tiles.length = width * height)
    (hwf : ∀ t ∈ tiles, t.id < 256 ∧ t.flags < 256 ∧ t.skip < 256 ∧ t.reserved < 256) :
    (encodeTileData width height tiles).length = width * height * 4 ∧
    encodeTileData width height tiles = tiles.flatMap tileBytes ∧
    decodeTileData (encodeTileData width height tiles) = tiles := by
  have hflat := encodeTileData_eq_flat width height tiles hlen
  refine ⟨?_, hflat, ?_⟩
  · rw [hflat]
    have : ∀ ts : List Tile, (ts.flatMap tileBytes).length = ts.length * 4 := by
      intro ts
      induction ts with
      | nil => rfl
      | cons u us ihu => simp [List.flatMap_cons, tileBytes, ihu]; omega
    rw [this, hlen]
  · rw [hflat]
    exact decode_flat tiles hwf

/-- A concrete 2 by 2 grid with flag bits set, for the C2 witness. -/
def tilesWitness : List Tile :=
  [⟨1, 3, 0, 0⟩, ⟨2, 8, 0, 0⟩, ⟨0, 4, 1, 0⟩, ⟨255, 15, 0, 0⟩]

/-- C2 witness: the tile codec claim evaluated on a concrete 2 by 2
grid with flag bits set. -/
theorem c2_tile_grid_roundtrip_witness :
    (encodeTileData 2 2 tilesWitness).length = 2 * 2 * 4 ∧
    encodeTileData 2 2 tilesWitness = tilesWitness.flatMap tileBytes ∧
    decodeTileData (encodeTileData 2 2 tilesWitness) = tilesWitness :=
  c2_tile_grid_roundtrip 2 2 tilesWitness (by decide) (by decide)

/- ------------------------------------------------------------------
C6.  Version gating.
------------------------------------------------------------------ -/

theorem readOffsets_length (buf : List Nat) : ∀ (n : Nat) (pos : Int) (l : List Int) (p : Int),
    readOffsets buf n pos = .ok (l, p) → l.length = n := by
  intro n
  induction n with
  | zero =>
    intro pos l p h
    simp only [readOffsets] at h
    cases h
    rfl
  | succ n ih =>
    intro pos l p h
    simp only [readOffsets, bind, Except.bind] at h
    split at h
    · exact absurd h (by simp)
    next vp heq =>
      split at h
      · exact absurd h (by simp)
      next lp heq2 =>
        have hlen := ih vp.2 lp.1 lp.2 heq2
        simp only [Except.ok.injEq, Prod.mk.injEq] at h
        rw [← h.1, List.length_cons, hlen]

/-- The header recovered from the version 5 buffer. -/
def hdrV5 : MapHeader :=
  { signature := [68, 65, 84, 65], version := 5, size := 0, swapLen := 0,
    numItemTypes := 0, numItems := 0, numData := 0, itemSize := 0, dataSize := 0 }

/-- The document produced by reading the version 5 buffer. -/
def docV5 : MapData :=
  { header := hdrV5, itemTypes := [], itemOffsets := [], dataOffsets := [],
    dataSizes := none, items := [], data := [] }

/-- The header recovered from the version 4 buffer. -/
def hdrV4 : MapHeader :=
  { signature := [68, 65, 84, 65], version := 4, size := 0, swapLen := 0,
    numItemTypes := 0, numItems := 0, numData := 0, itemSize := 0, dataSize := 0 }

/-- The document produced by reading the version 4 buffer. -/
def docV4 : MapData :=
  { header := hdrV4, itemTypes := [], itemOffsets := [], dataOffsets := [],
    dataSizes := some [], items := [], data := [] }

/-- C6 counterexample: a buffer whose header version is 5 is accepted by
MapReader.read without any error; the reader has no UnsupportedVersion
check at all, so the claim that any version other than 3 or 4 fails is
false.  The version 5 buffer is parsed exactly like a version 3 one,
without an uncompressed-length table. -/
theorem c6_counterexample_version5_accepted :
    readMap bufV5 = .ok docV5 ∧ docV5.header.version = 5 ∧ docV5.dataSizes = none := by
  refine ⟨?_, rfl, rfl⟩
  rfl

/-- C6 as amended: the parser validates no version value; on every
successful parse the uncompressed-length table is present (with one
entry per data block) exactly when the header version is 4, and absent
for every other version, 3 or otherwise. -/
theorem c6_version_gating (buf : List Nat) (doc : MapData) (h : readMap buf = .ok doc) :
    (doc.header.version = 4 →
      ∃ l, doc.dataSizes = some l ∧ l.length = doc.header.numData.toNat) ∧
    (doc.header.version ≠ 4 → doc.dataSizes = none) := by
  simp only [readMap, bind, Except.bind] at h
  split at h
  · exact absurd h (by simp)
  next hp heq0 =>
    split at h
    · exact absurd h (by simp)
    next tp heq1 =>
      split at h
      · exact absurd h (by simp)
      next op heq2 =>
        split at h
        · exact absurd h (by simp)
        next dp heq3 =>
          split at h
          next hv =>
            split at h
            · exact absurd h (by simp)
            next sp heq4 =>
              split at h
              · exact absurd h (by simp)
              next ip heq5 =>
                cases h
                refine ⟨fun _ => ⟨sp.1, rfl, ?_⟩, fun hne => absurd (by simpa using hv) hne⟩
                exact readOffsets_length buf _ _ sp.1 sp.2 heq4
          next hv =>
            split at h
            · exact absurd h (by simp)
            next ip heq5 =>
              cases h
              constructor
              · intro h4
                dsimp only at h4
                exact absurd (by simp [h4]) hv
              · intro hne
                rfl

/-- C6 witness: the amended claim evaluated at the version 4 buffer. -/
theorem c6_version_gating_witness :
    (docV4.header.version = 4 →
      ∃ l, docV4.dataSizes = some l ∧ l.length = docV4.header.numData.toNat) ∧
    (docV4.header.version ≠ 4 → docV4.dataSizes = none) :=
  c6_version_gating bufV4 docV4 (by rfl)

/- ------------------------------------------------------------------
C7 counterexample.
------------------------------------------------------------------ -/

/-- C7 counterexample: the claim quantifies over every exported
container, but when the editor-supplied items interleave the Layer and
Image types, prepareMapData records for the Layer type its first index
and total count, producing the entry (typeId 5, start 2, num 2) whose
run covers index 3, an Image item; the runs are neither contiguous nor
non-overlapping. -/
theorem c7_counterexample_interleaved_types :
    ∃ e ∈ (prepareMapData ungroupedInput).itemTypes, ∃ j : Nat,
      e.start ≤ (j : Int) ∧ (j : Int) < e.start + e.num ∧
      itemTypeOf ((prepareMapData ungroupedInput).items.getD j mapItemDefault) ≠ e.typeId := by
  refine ⟨⟨5, 2, 2⟩, by decide, 3, by decide, by decide, by decide⟩

/- ------------------------------------------------------------------
C8.  Envpoint invariant.
------------------------------------------------------------------ -/

/-- C8 counterexample: the claim promises exactly one Envpoint item even
when the editor-supplied container already contains one, but
prepareMapData appends its own Envpoint unconditionally, so an input
holding an Envpoint item yields a document with two of them. -/
theorem c8_counterexample_duplicate_envpoint :
    ¬ ((prepareMapData inputWithEnvpoint).items.countP (fun it => itemTypeOf it == 6) = 1) := by
  decide

/-- C8 as amended: prepareMapData always places a zero-payload Envpoint
item last (its declared size is 0 and its exported payload size is 0),
and when the editor-supplied items contain no Envpoint-typed item the
exported document contains the Envpoint type exactly once. -/
theorem c8_envpoint_terminator (md : MapData)
    (h : md.items.countP (fun it => itemTypeOf it == 6) = 0) :
    (prepareMapData md).items.getLast? = some envpointItem0 ∧
    envpointItem0.size = 0 ∧
    calculateItemDataSize envpointItem0 = 0 ∧
    (prepareMapData md).items.countP (fun it => itemTypeOf it == 6) = 1 := by
  refine ⟨?_, rfl, rfl, ?_⟩
  · rw [prepareMapData_items]
    have hsplit : versionItem0 :: infoItem0 :: (md.items ++ [envpointItem0]) =
        (versionItem0 :: infoItem0 :: md.items) ++ [envpointItem0] := by simp
    rw [hsplit, List.getLast?_concat]
  · rw [prepareMapData_items]
    have hv : (fun it => itemTypeOf it == 6) versionItem0 = false := by decide
    have hi : (fun it => itemTypeOf it == 6) infoItem0 = false := by decide
    have he : (fun it => itemTypeOf it == 6) envpointItem0 = true := by decide
    simp only [List.countP_cons, List.countP_append, hv, hi, he, h, List.countP_nil]
    decide

/-- C8 witness: the amended claim evaluated at the empty container. -/
theorem c8_envpoint_terminator_witness :
    (prepareMapData emptyMapData).items.getLast? = some envpointItem0 ∧
    envpointItem0.size = 0 ∧
    calculateItemDataSize envpointItem0 = 0 ∧
    (prepareMapData emptyMapData).items.countP (fun it => itemTypeOf it == 6) = 1 :=
  c8_envpoint_terminator emptyMapData rfl

/- ------------------------------------------------------------------
C9.  Data block sizes on read.
------------------------------------------------------------------ -/

/-- Cursor position before block number k of the data loop, starting
the loop at index i and cursor s: the start cursor plus the sum of the
computed sizes of the blocks before it. -/
def posAfter (offs : List Int) (dataSize numData : Int) (i : Nat) (s : Int) (k : Nat) : Int :=
  s + ((List.range k).map (fun j => blockSize offs dataSize numData (i + j))).sum

theorem posAfter_zero (offs : List Int) (dataSize numData : Int) (i : Nat) (s : Int) :
    posAfter offs dataSize numData i s 0 = s := by
  simp [posAfter]

theorem posAfter_shift (offs : List Int) (dataSize numData : Int) (i : Nat) (s : Int) (k : Nat) :
    posAfter offs dataSize numData i s (k + 1) =
      posAfter offs dataSize numData (i + 1) (s + blockSize offs dataSize numData i) k := by
  simp only [posAfter, List.range_succ_eq_map, List.map_cons, List.map_map, List.sum_cons,
    Nat.add_zero]
  have hmap : ((List.range k).map ((fun j => blockSize offs dataSize numData (i + j)) ∘ Nat.succ)) =
      (List.range k).map (fun j => blockSize offs dataSize numData (i + 1 + j)) := by
    refine List.map_congr_left fun j _ => ?_
    show blockSize offs dataSize numData (i + Nat.succ j) = _
    rw [show i + Nat.succ j = i + 1 + j by omega]
  rw [hmap]
  exact (add_assoc s (blockSize offs dataSize numData i) _).symm

/-- C9: the data-block loop of MapReader.read assigns to block i the
compressed length dataOffsets[i+1] minus dataOffsets[i] for every block
but the last and header.dataSize minus dataOffsets[i] for the last
(blockSize), reads exactly the slice of that length at the running
cursor, and advances the cursor by exactly that length. -/
theorem c9_data_block_sizes (buf : List Nat) (offs : List Int) (dataSize numData : Int) :
    ∀ (fuel i : Nat) (s : Int),
      (readDataBlocks buf offs dataSize numData fuel i s).1.length = fuel ∧
      (readDataBlocks buf offs dataSize numData fuel i s).2 =
        posAfter offs dataSize numData i s fuel ∧
      ∀ k, k < fuel →
        (readDataBlocks buf offs dataSize numData fuel i s).1.getD k [] =
          jsSlice buf (posAfter offs dataSize numData i s k)
            (posAfter offs dataSize numData i s k + blockSize offs dataSize numData (i + k)) := by
  intro fuel
  induction fuel with
  | zero =>
    intro i s
    refine ⟨rfl, (posAfter_zero offs dataSize numData i s).symm, fun k hk => absurd hk (by omega)⟩
  | succ n ih =>
    intro i s
    obtain ⟨ih1, ih2, ih3⟩ := ih (i + 1) (s + blockSize offs dataSize numData i)
    have hunf : readDataBlocks buf offs dataSize numData (n + 1) i s =
        (jsSlice buf s (s + blockSize offs dataSize numData i) ::
          (readDataBlocks buf offs dataSize numData n (i + 1)
            (s + blockSize offs dataSize numData i)).1,
         (readDataBlocks buf offs dataSize numData n (i + 1)
            (s + blockSize offs dataSize numData i)).2) := rfl
    refine ⟨?_, ?_, ?_⟩
    · rw [hunf]; simp [ih1]
    · rw [hunf]
      simpa [ih2] using (posAfter_shift offs dataSize numData i s n).symm
    · intro k hk
      rw [hunf]
      cases k with
      | zero =>
        simp [posAfter_zero]
      | succ k =>
        have hk2 : k < n := by omega
        have := ih3 k hk2
        simp only [List.getD_cons_succ]
        rw [this, posAfter_shift]
        rw [show i + 1 + k = i + (k + 1) by omega]

/-- C9 witness: the loop evaluated on a five-byte buffer with two
blocks at offsets 0 and 2 and a declared data size of 5. -/
theorem c9_data_block_sizes_witness :
    (readDataBlocks [10, 20, 30, 40, 50] [0, 2] 5 2 2 0 0).1.getD 0 [] =
      jsSlice [10, 20, 30, 40, 50] (posAfter [0, 2] 5 2 0 0 0)
        (posAfter [0, 2] 5 2 0 0 0 + blockSize [0, 2] 5 2 0) ∧
    (readDataBlocks [10, 20, 30, 40, 50] [0, 2] 5 2 2 0 0).1.getD 1 [] =
      jsSlice [10, 20, 30, 40, 50] (posAfter [0, 2] 5 2 0 0 1)
        (posAfter [0, 2] 5 2 0 0 1 + blockSize [0, 2] 5 2 1) ∧
    (readDataBlocks [10, 20, 30, 40, 50] [0, 2] 5 2 2 0 0).2 = 5 :=
  ⟨(c9_data_block_sizes [10, 20, 30, 40, 50] [0, 2] 5 2 2 0 0).2.2 0 (by decide),
   by
    have := (c9_data_block_sizes [10, 20, 30, 40, 50] [0, 2] 5 2 2 0 0).2.2 1 (by decide)
    simpa using this,
   by
    have := (c9_data_block_sizes [10, 20, 30, 40, 50] [0, 2] 5 2 2 0 0).2.1
    rw [this]
    decide⟩

/- ------------------------------------------------------------------
C5.  Signature gate.  Every reader failure after the signature check is
an out-of-bounds error, so the only source of the invalidSignature
error is the four-byte check in readHeader.
------------------------------------------------------------------ -/

theorem readInt32_error (buf : List Nat) (pos : Int) (e : ReadErr)
    (h : readInt32 buf pos = .error e) : e = .outOfBounds := by
  unfold readInt32 at h
  split at h
  · exact absurd h (by simp)
  · simp only [Except.error.injEq] at h
    exact h.symm

theorem readOffsets_error (buf : List Nat) : ∀ (n : Nat) (pos : Int) (e : ReadErr),
    readOffsets buf n pos = .error e → e = .outOfBounds := by
  intro n
  induction n with
  | zero => intro pos e h; simp [readOffsets] at h
  | succ n ih =>
    intro pos e h
    simp only [readOffsets, bind, Except.bind] at h
    split at h
    next e2 heq =>
      simp only [Except.error.injEq] at h
      rw [← h]
      exact readInt32_error buf pos e2 heq
    next vp heq =>
      split at h
      next e2 heq2 =>
        simp only [Except.error.injEq] at h
        rw [← h]
        exact ih vp.2 e2 heq2
      next lp heq2 => exact absurd h (by simp)

theorem readItemTypeE_error (buf : List Nat) (pos : Int) (e : ReadErr)
    (h : readItemTypeE buf pos = .error e) : e = .outOfBounds := by
  simp only [readItemTypeE, bind, Except.bind] at h
  split at h
  next e2 heq =>
    simp only [Except.error.injEq] at h
    rw [← h]
    exact readInt32_error buf pos e2 heq
  next vp heq =>
    split at h
    next e2 heq2 =>
      simp only [Except.error.injEq] at h
      rw [← h]
      exact readInt32_error buf vp.2 e2 heq2
    next wp heq2 =>
      split at h
      next e2 heq3 =>
        simp only [Except.error.injEq] at h
        rw [← h]
        exact readInt32_error buf wp.2 e2 heq3
      next xp heq3 => exact absurd h (by simp)

theorem readItemTypes_error (buf : List Nat) : ∀ (n : Nat) (pos : Int) (e : ReadErr),
    readItemTypes buf n pos = .error e → e = .outOfBounds := by
  intro n
  induction n with
  | zero => intro pos e h; simp [readItemTypes] at h
  | succ n ih =>
    intro pos e h
    simp only [readItemTypes, bind, Except.bind] at h
    split at h
    next e2 heq =>
      simp only [Except.error.injEq] at h
      rw [← h]
      exact readItemTypeE_error buf pos e2 heq
    next vp heq =>
      split at h
      next e2 heq2 =>
        simp only [Except.error.injEq] at h
        rw [← h]
        exact ih vp.2 e2 heq2
      next lp heq2 => exact absurd h (by simp)

theorem readItemE_error (buf : List Nat) (pos : Int) (e : ReadErr)
    (h : readItemE buf pos = .error e) : e = .outOfBounds := by
  simp only [readItemE, bind, Except.bind] at h
  split at h
  next e2 heq =>
    simp only [Except.error.injEq] at h
    rw [← h]
    exact readInt32_error buf pos e2 heq
  next vp heq =>
    split at h
    next e2 heq2 =>
      simp only [Except.error.injEq] at h
      rw [← h]
      exact readInt32_error buf vp.2 e2 heq2
    next wp heq2 => exact absurd h (by simp)

theorem readItems_error (buf : List Nat) : ∀ (n : Nat) (pos : Int) (e : ReadErr),
    readItems buf n pos = .error e → e = .outOfBounds := by
  intro n
  induction n with
  | zero => intro pos e h; simp [readItems] at h
  | succ n ih =>
    intro pos e h
    simp only [readItems, bind, Except.bind] at h
    split at h
    next e2 heq =>
      simp only [Except.error.injEq] at h
      rw [← h]
      exact readItemE_error buf pos e2 heq
    next vp heq =>
      split at h
      next e2 heq2 =>
        simp only [Except.error.injEq] at h
        rw [← h]
        exact ih vp.2 e2 heq2
      next lp heq2 => exact absurd h (by simp)

theorem readHeaderE_error_validSig (buf : List Nat) (pos : Int) (e : ReadErr)
    (hcond : 0 ≤ pos ∧ pos + 4 ≤ (buf.length : Int))
    (hsig : isValidSignature (jsSlice buf pos (pos + 4)) = true)
    (h : readHeaderE buf pos = .error e) : e = .outOfBounds := by
  simp only [readHeaderE] at h
  rw [if_pos hcond, if_pos hsig] at h
  simp only [bind, Except.bind] at h
  split at h
  next e2 heq =>
    simp only [Except.error.injEq] at h
    rw [← h]
    exact readInt32_error buf _ e2 heq
  next p1 heq1 =>
    split at h
    next e2 heq =>
      simp only [Except.error.injEq] at h
      rw [← h]
      exact readInt32_error buf _ e2 heq
    next p2 heq2 =>
      split at h
      next e2 heq =>
        simp only [Except.error.injEq] at h
        rw [← h]
        exact readInt32_error buf _ e2 heq
      next p3 heq3 =>
        split at h
        next e2 heq =>
          simp only [Except.error.injEq] at h
          rw [← h]
          exact readInt32_error buf _ e2 heq
        next p4 heq4 =>
          split at h
          next e2 heq =>
            simp only [Except.error.injEq] at h
            rw [← h]
            exact readInt32_error buf _ e2 heq
          next p5 heq5 =>
            split at h
            next e2 heq =>
              simp only [Except.error.injEq] at h
              rw [← h]
              exact readInt32_error buf _ e2 heq
            next p6 heq6 =>
              split at h
              next e2 heq =>
                simp only [Except.error.injEq] at h
                rw [← h]
                exact readInt32_error buf _ e2 heq
              next p7 heq7 =>
                split at h
                next e2 heq =>
                  simp only [Except.error.injEq] at h
                  rw [← h]
                  exact readInt32_error buf _ e2 heq
                next p8 heq8 => exact absurd h (by simp)

theorem readHeaderE_invalidSig (buf : List Nat) (pos : Int)
    (hcond : 0 ≤ pos ∧ pos + 4 ≤ (buf.length : Int))
    (hsig : isValidSignature (jsSlice buf pos (pos + 4)) = false) :
    readHeaderE buf pos = .error .invalidSignature := by
  simp only [readHeaderE]
  rw [if_pos hcond, if_neg (by simp [hsig])]

theorem readMap_error (buf : List Nat) (e : ReadErr) (h : readMap buf = .error e)
    (hhdr : ∀ e2, readHeaderE buf 0 = .error e2 → e2 = .outOfBounds) : e = .outOfBounds := by
  simp only [readMap, bind, Except.bind] at h
  split at h
  next e2 heq =>
    simp only [Except.error.injEq] at h
    rw [← h]
    exact hhdr e2 heq
  next hp heq0 =>
    split at h
    next e2 heq =>
      simp only [Except.error.injEq] at h
      rw [← h]
      exact readItemTypes_error buf _ _ e2 heq
    next tp heq1 =>
      split at h
      next e2 heq =>
        simp only [Except.error.injEq] at h
        rw [← h]
        exact readOffsets_error buf _ _ e2 heq
      next op heq2 =>
        split at h
        next e2 heq =>
          simp only [Except.error.injEq] at h
          rw [← h]
          exact readOffsets_error buf _ _ e2 heq
        next dp heq3 =>
          split at h
          next hv =>
            split at h
            next e2 heq =>
              simp only [Except.error.injEq] at h
              rw [← h]
              exact readOffsets_error buf _ _ e2 heq
            next sp heq4 =>
              split at h
              next e2 heq =>
                simp only [Except.error.injEq] at h
                rw [← h]
                exact readItems_error buf _ _ e2 heq
              next ip heq5 => exact absurd h (by simp)
          next hv =>
            split at h
            next e2 heq =>
              simp only [Except.error.injEq] at h
              rw [← h]
              exact readItems_error buf _ _ e2 heq
            next ip heq5 => exact absurd h (by simp)

theorem jsSlice_zero_four (buf : List Nat) (hlen : 4 ≤ buf.length) :
    jsSlice buf 0 4 = buf.take 4 := by
  simp [jsSlice, jsSliceIndex, Nat.min_eq_left hlen]

theorem validSig_iff (buf : List Nat) (hlen : 4 ≤ buf.length) :
    isValidSignature (jsSlice buf 0 4) = true ↔
      (buf.take 4 = sigDATA ∨ buf.take 4 = sigATAD) := by
  rw [jsSlice_zero_four buf hlen]
  simp [isValidSignature]

/-- C5: for every buffer long enough to hold the four signature bytes,
MapReader.read gets past the signature check (that is, does not fail
with invalidSignature) exactly when the first four bytes are the ASCII
tag DATA forward or byte-reversed; for any other four bytes the whole
read fails with invalidSignature and no document is returned. -/
theorem c5_signature_gate (buf : List Nat) (hlen : 4 ≤ buf.length) :
    (readMap buf ≠ .error .invalidSignature ↔
      (buf.take 4 = sigDATA ∨ buf.take 4 = sigATAD)) ∧
    (¬(buf.take 4 = sigDATA ∨ buf.take 4 = sigATAD) →
      readMap buf = .error .invalidSignature) := by
  have hcond : 0 ≤ (0 : Int) ∧ (0 : Int) + 4 ≤ (buf.length : Int) := by
    constructor
    · omega
    · omega
  have hbadcase : ¬(buf.take 4 = sigDATA ∨ buf.take 4 = sigATAD) →
      readMap buf = .error .invalidSignature := by
    intro hbad
    have hsig : isValidSignature (jsSlice buf 0 4) = false := by
      rw [Bool.eq_false_iff]
      intro hc
      exact hbad ((validSig_iff buf hlen).mp hc)
    have hhdr := readHeaderE_invalidSig buf 0 hcond hsig
    simp only [readMap, bind, Except.bind, hhdr]
  refine ⟨⟨?_, ?_⟩, hbadcase⟩
  · intro hne
    by_contra hbad
    exact hne (hbadcase hbad)
  · intro hval hcontra
    have hsig : isValidSignature (jsSlice buf 0 4) = true := (validSig_iff buf hlen).mpr hval
    have := readMap_error buf .invalidSignature hcontra
      (fun e2 he2 => readHeaderE_error_validSig buf 0 e2 hcond hsig he2)
    exact absurd this (by simp)

/-- C5 witness: the signature gate evaluated on the four bytes of the
forward tag itself. -/
theorem c5_signature_gate_witness :
    ((readMap sigDATA ≠ .error .invalidSignature ↔
      (sigDATA.take 4 = sigDATA ∨ sigDATA.take 4 = sigATAD)) ∧
    (¬(sigDATA.take 4 = sigDATA ∨ sigDATA.take 4 = sigATAD) →
      readMap sigDATA = .error .invalidSignature)) :=
  c5_signature_gate sigDATA (by decide)

/- ------------------------------------------------------------------
Support for C4 and C10: decoding the int32 fields of the written
header, and the success shape of exportMap.
------------------------------------------------------------------ -/

theorem i32_length (v : Int) : (i32 v).length = 4 := rfl

theorem getD_append_right (A B : List Nat) (k : Nat) :
    (A ++ B).getD (A.length + k) 0 = B.getD k 0 := by
  rw [List.getD_eq_getElem?_getD, List.getD_eq_getElem?_getD,
    List.getElem?_append_right (by omega)]
  rw [show A.length + k - A.length = k from by omega]

theorem int32At_append (A B : List Nat) (k : Nat) :
    int32At (A ++ B) (A.length + k) = int32At B k := by
  unfold int32At
  rw [show A.length + k + 1 = A.length + (k + 1) by omega,
      show A.length + k + 2 = A.length + (k + 2) by omega,
      show A.length + k + 3 = A.length + (k + 3) by omega,
      getD_append_right A B k, getD_append_right A B (k + 1), getD_append_right A B (k + 2),
      getD_append_right A B (k + 3)]

theorem emod_eq_of_lt_range (a b : Int) (h1 : 0 ≤ a) (h2 : a < b) : a.emod b = a :=
  Int.emod_eq_of_lt h1 h2

theorem emod_sub_self (a b : Int) : (a - b).emod b = a.emod b := by
  rw [show a - b = a + b * (-1) by ring]
  exact Int.add_mul_emod_self_left a b (-1)

theorem int32At_i32 (v : Int) (rest : List Nat) :
    int32At (i32 v ++ rest) 0 = toInt32 v := by
  have h1 : 0 ≤ v.emod 4294967296 := Int.emod_nonneg v (by norm_num)
  have h2 : v.emod 4294967296 < 4294967296 := Int.emod_lt_of_pos v (by norm_num)
  have hu : (v.emod 4294967296).toNat < 4294967296 := by omega
  have hw : (((v.emod 4294967296).toNat : Nat) : Int) = v.emod 4294967296 := by omega
  simp only [i32, int32At, List.cons_append, List.nil_append, List.getD_cons_zero,
    List.getD_cons_succ]
  unfold decodeI32
  have hd : (v.emod 4294967296).toNat % 256 +
      256 * ((v.emod 4294967296).toNat / 256 % 256) +
      65536 * ((v.emod 4294967296).toNat / 65536 % 256) +
      16777216 * ((v.emod 4294967296).toNat / 16777216 % 256) =
      (v.emod 4294967296).toNat := by omega
  rw [hd]
  unfold toInt32
  dsimp only
  have hrel : (v + 2147483648).emod 4294967296 =
      (v.emod 4294967296 + 2147483648).emod 4294967296 :=
    (Int.emod_add_emod v 4294967296 2147483648).symm
  rw [hrel]
  split
  next hlt =>
    rw [emod_eq_of_lt_range (v.emod 4294967296 + 2147483648) 4294967296 (by omega) (by omega)]
    omega
  next hge =>
    have e1 := emod_sub_self (v.emod 4294967296 + 2147483648) 4294967296
    rw [← e1, emod_eq_of_lt_range (v.emod 4294967296 + 2147483648 - 4294967296) 4294967296
      (by omega) (by omega)]
    omega

theorem int32At_skip4 (x : Int) (B : List Nat) (k : Nat) :
    int32At (i32 x ++ B) (4 + k) = int32At B k :=
  int32At_append (i32 x) B k

theorem int32At_skipSig (B : List Nat) (k : Nat) :
    int32At (sigDATA ++ B) (4 + k) = int32At B k :=
  int32At_append sigDATA B k

theorem mkHeaderBytes_version (v s sw nT nI nD iS dS : Int) (rest : List Nat) :
    int32At (mkHeaderBytes v s sw nT nI nD iS dS ++ rest) 4 = toInt32 v := by
  simp only [mkHeaderBytes, List.append_assoc]
  rw [show (4 : Nat) = 4 + 0 from rfl, int32At_skipSig, int32At_i32]

theorem mkHeaderBytes_size (v s sw nT nI nD iS dS : Int) (rest : List Nat) :
    int32At (mkHeaderBytes v s sw nT nI nD iS dS ++ rest) 8 = toInt32 s := by
  simp only [mkHeaderBytes, List.append_assoc]
  rw [show (8 : Nat) = 4 + (4 + 0) from rfl, int32At_skipSig, int32At_skip4, int32At_i32]

theorem mkHeaderBytes_swapLen (v s sw nT nI nD iS dS : Int) (rest : List Nat) :
    int32At (mkHeaderBytes v s sw nT nI nD iS dS ++ rest) 12 = toInt32 sw := by
  simp only [mkHeaderBytes, List.append_assoc]
  rw [show (12 : Nat) = 4 + (4 + (4 + 0)) from rfl, int32At_skipSig, int32At_skip4,
    int32At_skip4, int32At_i32]

theorem mkHeaderBytes_itemSize (v s sw nT nI nD iS dS : Int) (rest : List Nat) :
    int32At (mkHeaderBytes v s sw nT nI nD iS dS ++ rest) 28 = toInt32 iS := by
  simp only [mkHeaderBytes, List.append_assoc]
  rw [show (28 : Nat) = 4 + (4 + (4 + (4 + (4 + (4 + (4 + 0)))))) from rfl, int32At_skipSig,
    int32At_skip4, int32At_skip4, int32At_skip4, int32At_skip4, int32At_skip4, int32At_skip4,
    int32At_i32]

theorem mkHeaderBytes_dataSize (v s sw nT nI nD iS dS : Int) (rest : List Nat) :
    int32At (mkHeaderBytes v s sw nT nI nD iS dS ++ rest) 32 = toInt32 dS := by
  simp only [mkHeaderBytes, List.append_assoc]
  rw [show (32 : Nat) = 4 + (4 + (4 + (4 + (4 + (4 + (4 + (4 + 0))))))) from rfl,
    int32At_skipSig, int32At_skip4, int32At_skip4, int32At_skip4, int32At_skip4, int32At_skip4,
    int32At_skip4, int32At_skip4, int32At_i32]

theorem writeRecords_ok (records : List (Nat × List Nat)) : ∀ (region : List Nat),
    (∀ r ∈ records, r.1 + r.2.length ≤ region.length) →
    ∃ r2, writeRecords region records = .ok r2 ∧ r2.length = region.length := by
  induction records with
  | nil => intro region _; exact ⟨region, rfl, rfl⟩
  | cons r rs ih =>
    intro region h
    have hr : r.1 + r.2.length ≤ region.length := h r (by simp)
    have hlen : (storeBytes region r.1 r.2).length = region.length :=
      storeBytes_length region r.1 r.2 hr
    obtain ⟨r2, h2, hl2⟩ := ih (storeBytes region r.1 r.2)
      (fun x hx => by rw [hlen]; exact h x (by simp [hx]))
    refine ⟨r2, ?_, by rw [hl2, hlen]⟩
    simp only [writeRecords]
    rw [if_pos hr]
    exact h2

theorem mkHeaderBytes_length (v s sw nT nI nD iS dS : Int) :
    (mkHeaderBytes v s sw nT nI nD iS dS).length = 36 := by
  simp [mkHeaderBytes, i32_length, sigDATA]

theorem itemTypeTableBytes_length (l : List ItemTypeInfo) :
    (itemTypeTableBytes l).length = 12 * l.length := by
  induction l with
  | nil => rfl
  | cons e es ih =>
    simp only [itemTypeTableBytes, List.flatMap_cons, List.length_append, i32_length,
      List.length_cons] at ih ⊢
    omega

theorem flatMap_i32_length {α : Type} (f : α → Int) (l : List α) :
    (l.flatMap (fun x => i32 (f x))).length = 4 * l.length := by
  induction l with
  | nil => rfl
  | cons e es ih =>
    simp only [List.flatMap_cons, List.length_append, i32_length, List.length_cons] at ih ⊢
    omega

theorem dataSizeTableBytes_length (data : List (List Nat)) :
    (dataSizeTableBytes data).length = 4 * data.length := by
  unfold dataSizeTableBytes
  exact flatMap_i32_length (fun d => (d.length : Int)) data

/-- Whatever writeRecords returns successfully has the length of the
region it started from. -/
theorem writeRecords_length (records : List (Nat × List Nat)) : ∀ (region r2 : List Nat),
    writeRecords region records = .ok r2 → r2.length = region.length := by
  induction records with
  | nil =>
    intro region r2 h
    simp only [writeRecords, Except.ok.injEq] at h
    rw [← h]
  | cons r rs ih =>
    intro region r2 h
    simp only [writeRecords] at h
    split at h
    next hfit =>
      have := ih (storeBytes region r.1 r.2) r2 h
      rw [this, storeBytes_length region r.1 r.2 hfit]
    next hfit => exact absurd h (by simp)

/-- The success shape of exportMap: a produced buffer is the metadata
bytes followed by the filled item-and-data region, whose length is the
item area plus the data area. -/
theorem exportMap_ok_shape (compress : List Nat → List Nat) (mapData : MapData) (buf : List Nat)
    (h : exportMap compress mapData = .ok buf) :
    ∃ tail, buf =
      exportMetadataBytes (prepareMapData mapData) (exportDataList (prepareMapData mapData).items)
        ((exportDataList (prepareMapData mapData).items).map compress) ++ tail ∧
      tail.length = itemAreaSizeOf (prepareMapData mapData).items +
        dataAreaSizeOf ((exportDataList (prepareMapData mapData).items).map compress) := by
  simp only [exportMap] at h
  split at h
  · exact absurd h (by simp)
  next r1 heq1 =>
    split at h
    · exact absurd h (by simp)
    next r2 heq2 =>
      simp only [Except.ok.injEq] at h
      refine ⟨r2, h.symm, ?_⟩
      have h1 := writeRecords_length _ _ _ heq1
      have h2 := writeRecords_length _ _ _ heq2
      rw [h2, h1, List.length_replicate]

/- ------------------------------------------------------------------
C10.  Export is always version 4 with a size table.
------------------------------------------------------------------ -/

theorem runningSums_length (l : List Nat) : ∀ (a : Nat), (runningSums a l).length = l.length := by
  induction l with
  | nil => intro a; rfl
  | cons x xs ih => intro a; simp [runningSums, ih]

theorem exportHeaderBytes_length (mapCopy : MapData) (compressedData : List (List Nat)) :
    (exportHeaderBytes mapCopy compressedData).length = 36 := by
  simp only [exportHeaderBytes]
  exact mkHeaderBytes_length _ _ _ _ _ _ _ _

theorem exportTablesBytes_length (mapCopy : MapData) (compressedData : List (List Nat)) :
    (exportTablesBytes mapCopy compressedData).length =
      12 * mapCopy.itemTypes.length + 4 * mapCopy.items.length + 4 * compressedData.length := by
  simp only [exportTablesBytes, List.length_append, itemTypeTableBytes_length,
    flatMap_i32_length, exportItemOffsets, exportDataOffsets, runningSums_length,
    exportItemSizes, List.length_map]

/-- C10: every buffer produced by MapExporter.exportMap carries header
version 4 in bytes 4 to 8 (so never version 3), always followed at the
documented position by the per-block uncompressed-length table, one
int32 per data block; and the exporter ignores the input header
entirely, so the result is identical whatever version the input
container carries. -/
theorem c10_export_always_version4 (compress : List Nat → List Nat) (mapData : MapData)
    (buf : List Nat) (h : exportMap compress mapData = .ok buf) :
    int32At buf 4 = 4 ∧
    (∃ pre tail, buf = pre ++
        dataSizeTableBytes (exportDataList (prepareMapData mapData).items) ++ tail ∧
      pre.length = 36 + 12 * (prepareMapData mapData).itemTypes.length +
        4 * (prepareMapData mapData).items.length +
        4 * (exportDataList (prepareMapData mapData).items).length) ∧
    (∀ h2 : MapHeader, exportMap compress { mapData with header := h2 } =
      exportMap compress mapData) := by
  obtain ⟨tail, hbuf, -⟩ := exportMap_ok_shape compress mapData buf h
  refine ⟨?_, ?_, fun h2 => rfl⟩
  · rw [hbuf]
    simp only [exportMetadataBytes, exportHeaderBytes, List.append_assoc]
    rw [mkHeaderBytes_version]
    decide
  · refine ⟨exportHeaderBytes (prepareMapData mapData)
        ((exportDataList (prepareMapData mapData).items).map compress) ++
      exportTablesBytes (prepareMapData mapData)
        ((exportDataList (prepareMapData mapData).items).map compress), tail, ?_, ?_⟩
    · rw [hbuf]
      simp only [exportMetadataBytes, List.append_assoc]
    · simp only [List.length_append, exportHeaderBytes_length, exportTablesBytes_length,
        List.length_map]
      omega

/-- The doubling stand-in for the compressor used by the witnesses. -/
def dupCompress (bs : List Nat) : List Nat := bs ++ bs

/-- The buffer exported from mapData4 with the doubling compressor. -/
def bufC10 : List Nat := (exportMap dupCompress mapData4).toOption.getD []

set_option maxRecDepth 100000 in
/-- C10 witness: the version-4 claim evaluated on a concrete export. -/
theorem c10_export_always_version4_witness :
    int32At bufC10 4 = 4 ∧
    (∃ pre tail, bufC10 = pre ++
        dataSizeTableBytes (exportDataList (prepareMapData mapData4).items) ++ tail ∧
      pre.length = 36 + 12 * (prepareMapData mapData4).itemTypes.length +
        4 * (prepareMapData mapData4).items.length +
        4 * (exportDataList (prepareMapData mapData4).items).length) ∧
    (∀ h2 : MapHeader, exportMap dupCompress { mapData4 with header := h2 } =
      exportMap dupCompress mapData4) :=
  c10_export_always_version4 dupCompress mapData4 bufC10 (by rfl)

/- ------------------------------------------------------------------
C4.  Header size fields.
------------------------------------------------------------------ -/

/-- C4: on the container holding one 2 by 1 tile layer, whenever the
compressed tile block has at least 16 bytes (smaller outputs make
exportMap throw), the produced header satisfies three of the four
claimed equations: size is the total length minus 16, swapLen is size
minus the data-area length (here 200), and dataSize is the compressed
byte total; but the itemSize field holds 108, the payload byte total
alone, while the total byte length of the item records, 8 plus payload
each, is 140, so the claimed itemSize equation fails. -/
theorem c4_header_itemSize_bug (compress : List Nat → List Nat)
    (h16 : 16 ≤ (compress grid4).length) :
    ∃ buf, exportMap compress mapData4 = .ok buf ∧
      buf.length = 216 + (compress grid4).length ∧
      int32At buf 8 = toInt32 (200 + ((compress grid4).length : Int)) ∧
      int32At buf 12 = 200 ∧
      int32At buf 28 = 108 ∧
      int32At buf 32 = toInt32 (((compress grid4).length : Int)) ∧
      ((exportItemSizes (prepareMapData mapData4).items).map (fun s => 8 + s)).sum = 140 := by
  have hshape : (exportRecordList (prepareMapData mapData4) 0 1).map
      (fun r => (r.1, r.2.length)) = [(0, 12), (4, 32), (28, 96), (108, 8)] := by decide
  have hfits : ∀ r ∈ exportRecordList (prepareMapData mapData4) 0 1,
      r.1 + r.2.length ≤ (List.replicate (108 + (compress grid4).length) 0).length := by
    intro r hr
    have hmem : (r.1, r.2.length) ∈
        ([(0, 12), (4, 32), (28, 96), (108, 8)] : List (Nat × Nat)) := by
      rw [← hshape]
      exact List.mem_map_of_mem _ hr
    simp only [List.mem_cons, List.not_mem_nil, or_false, Prod.mk.injEq] at hmem
    rw [List.length_replicate]
    rcases hmem with ⟨e1, e2⟩ | ⟨e1, e2⟩ | ⟨e1, e2⟩ | ⟨e1, e2⟩ <;> omega
  obtain ⟨r1, hw1, hl1⟩ := writeRecords_ok (exportRecordList (prepareMapData mapData4) 0 1)
    (List.replicate (108 + (compress grid4).length) 0) hfits
  have hfits2 : ∀ r ∈ ([(108, compress grid4)] : List (Nat × List Nat)),
      r.1 + r.2.length ≤ r1.length := by
    intro r hr
    simp only [List.mem_cons, List.not_mem_nil, or_false] at hr
    rw [hr, hl1, List.length_replicate]
  obtain ⟨r2, hw2, hl2⟩ := writeRecords_ok [(108, compress grid4)] r1 hfits2
  have hA : itemAreaSizeOf (prepareMapData mapData4).items = 108 := by decide
  have hD : exportDataList (prepareMapData mapData4).items = [grid4] := by decide
  have hI : (exportImageData (prepareMapData mapData4).items).length = 0 := by decide
  have hL : (exportLayerData (prepareMapData mapData4).items).length = 1 := by decide
  have hH : headerAndMetadataSizeOf (prepareMapData mapData4) 1 = 108 := by decide
  have hDA : dataAreaSizeOf [compress grid4] = (compress grid4).length := by
    simp [dataAreaSizeOf]
  have hexp : exportMap compress mapData4 =
      .ok (exportMetadataBytes (prepareMapData mapData4) [grid4] [compress grid4] ++ r2) := by
    simp only [exportMap, hD, hI, hL, List.map_cons, List.map_nil, hA, hDA]
    rw [hw1]
    dsimp only
    rw [show exportDataRecordList 108 [compress grid4] = [(108, compress grid4)] from rfl, hw2]
  refine ⟨exportMetadataBytes (prepareMapData mapData4) [grid4] [compress grid4] ++ r2,
    hexp, ?_, ?_, ?_, ?_, ?_, by decide⟩
  · rw [List.length_append, hl2, hl1, List.length_replicate]
    simp only [exportMetadataBytes, List.length_append, exportHeaderBytes_length,
      exportTablesBytes_length, dataSizeTableBytes_length]
    have hnT : (prepareMapData mapData4).itemTypes.length = 4 := by decide
    have hnI : (prepareMapData mapData4).items.length = 4 := by decide
    rw [hnT, hnI]
    simp only [List.length_cons, List.length_nil]
    omega
  · simp only [exportMetadataBytes, exportHeaderBytes, hA, hDA, hH, List.append_assoc,
      List.length_cons, List.length_nil]
    rw [mkHeaderBytes_size]
    congr 1
    push_cast
    ring
  · simp only [exportMetadataBytes, exportHeaderBytes, hA, hDA, hH, List.append_assoc,
      List.length_cons, List.length_nil]
    rw [mkHeaderBytes_swapLen]
    rw [show ((108 : Nat) : Int) + ((108 : Nat) : Int) - 16 = 200 from by norm_num]
    decide
  · simp only [exportMetadataBytes, exportHeaderBytes, hA, hDA, hH, List.append_assoc,
      List.length_cons, List.length_nil]
    rw [mkHeaderBytes_itemSize]
    decide
  · simp only [exportMetadataBytes, exportHeaderBytes, hA, hDA, hH, List.append_assoc,
      List.length_cons, List.length_nil]
    rw [mkHeaderBytes_dataSize]

/-- C4 witness: the header claim evaluated with the doubling compressor
(the 8-byte tile block compresses to 16 bytes). -/
theorem c4_header_itemSize_bug_witness :
    16 ≤ (dupCompress grid4).length ∧
    ∃ buf, exportMap dupCompress mapData4 = .ok buf ∧
      buf.length = 216 + (dupCompress grid4).length ∧
      int32At buf 8 = toInt32 (200 + ((dupCompress grid4).length : Int)) ∧
      int32At buf 12 = 200 ∧
      int32At buf 28 = 108 ∧
      int32At buf 32 = toInt32 (((dupCompress grid4).length : Int)) ∧
      ((exportItemSizes (prepareMapData mapData4).items).map (fun s => 8 + s)).sum = 140 :=
  ⟨by decide, c4_header_itemSize_bug dupCompress (by decide)⟩

/- ------------------------------------------------------------------
C7 amended: the item-type table built by prepareMapData.  The typeMap
fold records for each type its first index and its total count; when
the item list is a concatenation of runs of pairwise-distinct types,
those coincide with the run boundaries.
------------------------------------------------------------------ -/

theorem findIdx_append_found {α : Type} (p : α → Bool) (l2 : List α) :
    ∀ (l1 : List α), l1.any p = true → (l1 ++ l2).findIdx p = l1.findIdx p := by
  intro l1
  induction l1 with
  | nil => intro h; simp at h
  | cons a as ih =>
    intro h
    by_cases hp : p a
    · simp [List.findIdx_cons, hp]
    · have h2 : as.any p = true := by
        simp only [List.any_cons, Bool.or_eq_true] at h
        rcases h with h | h
        · exact absurd h hp
        · exact h
      simp [List.findIdx_cons, hp, ih h2]

theorem findIdx_append_not_found {α : Type} (p : α → Bool) (l2 : List α) :
    ∀ (l1 : List α), l1.any p = false →
      (l1 ++ l2).findIdx p = l1.length + l2.findIdx p := by
  intro l1
  induction l1 with
  | nil => intro _; simp
  | cons a as ih =>
    intro h
    simp only [List.any_cons, Bool.or_eq_false_iff] at h
    have hp : p a = false := h.1
    simp only [List.cons_append, List.findIdx_cons, hp, cond_false, ih h.2, List.length_cons]
    omega

theorem getD_append_left_any {α : Type} (A B : List α) (j : Nat) (d : α) (h : j < A.length) :
    (A ++ B).getD j d = A.getD j d := by
  rw [List.getD_eq_getElem?_getD, List.getD_eq_getElem?_getD, List.getElem?_append_left h]

theorem getD_append_right_any {α : Type} (A B : List α) (k : Nat) (d : α) :
    (A ++ B).getD (A.length + k) d = B.getD k d := by
  rw [List.getD_eq_getElem?_getD, List.getD_eq_getElem?_getD,
    List.getElem?_append_right (by omega)]
  rw [show A.length + k - A.length = k from by omega]

/-- The invariant of the typeMap fold of prepareMapData relative to the
processed prefix P: the accumulated entries have pairwise-distinct
keys, each entry carries the first index and the count of its type in
P, every type occurring in P has an entry, and the counts add up to the
length of P. -/
def EntriesSpec (P : List MapItem) (acc : List (Int × Nat × Nat)) : Prop :=
  (acc.map Prod.fst).Nodup ∧
  (∀ e ∈ acc, P.any (fun it => itemTypeOf it == e.1) = true ∧
    e.2.1 = P.findIdx (fun it => itemTypeOf it == e.1) ∧
    e.2.2 = P.countP (fun it => itemTypeOf it == e.1)) ∧
  (∀ t : Int, P.any (fun it => itemTypeOf it == t) = true → t ∈ acc.map Prod.fst) ∧
  (acc.map (fun e => e.2.2)).sum = P.length

theorem sum_bump (t0 : Int) : ∀ (acc : List (Int × Nat × Nat)),
    (acc.map Prod.fst).Nodup → t0 ∈ acc.map Prod.fst →
    ((acc.map (fun e => if e.1 == t0 then (e.1, e.2.1, e.2.2 + 1) else e)).map
      (fun e => e.2.2)).sum = (acc.map (fun e => e.2.2)).sum + 1 := by
  intro acc
  induction acc with
  | nil => intro _ h; simp at h
  | cons e es ih =>
    intro hnd hmem
    simp only [List.map_cons, List.nodup_cons] at hnd
    by_cases hcase : e.1 = t0
    · have hrest : es.map (fun x => if x.1 == t0 then (x.1, x.2.1, x.2.2 + 1) else x) = es := by
        have hid : ∀ x ∈ es, (if x.1 == t0 then (x.1, x.2.1, x.2.2 + 1) else x) = id x := by
          intro x hx
          have hne : x.1 ≠ t0 := by
            intro hc
            exact hnd.1 (by rw [hcase, ← hc]; exact List.mem_map_of_mem Prod.fst hx)
          simp [hne]
        rw [List.map_congr_left hid, List.map_id]
      have hee : (e.1 == t0) = true := by simp [hcase]
      simp only [List.map_cons, hee, if_true, hrest, List.sum_cons]
      omega
    · have hmem2 : t0 ∈ es.map Prod.fst := by
        simp only [List.map_cons, List.mem_cons] at hmem
        rcases hmem with h | h
        · exact absurd h.symm hcase
        · exact h
      have hee : (e.1 == t0) = false := by simp [hcase]
      simp only [List.map_cons, hee, Bool.false_eq_true, if_false, List.sum_cons,
        ih hnd.2 hmem2]
      omega

theorem addItemType_spec (P : List MapItem) (acc : List (Int × Nat × Nat)) (it : MapItem)
    (hspec : EntriesSpec P acc) :
    EntriesSpec (P ++ [it]) (addItemType acc (itemTypeOf it) P.length) := by
  obtain ⟨hnd, hent, hcov, hsum⟩ := hspec
  by_cases hmem : acc.any (fun e => e.1 == itemTypeOf it) = true
  · -- known type: the matching entry gets its count bumped
    have hkey : itemTypeOf it ∈ acc.map Prod.fst := by
      rw [List.any_eq_true] at hmem
      obtain ⟨e, he, hbe⟩ := hmem
      rw [beq_iff_eq] at hbe
      rw [← hbe]
      exact List.mem_map_of_mem Prod.fst he
    have hanyP : P.any (fun x => itemTypeOf x == itemTypeOf it) = true := by
      rw [List.any_eq_true] at hmem
      obtain ⟨e, he, hbe⟩ := hmem
      rw [beq_iff_eq] at hbe
      have := (hent e he).1
      rw [hbe] at this
      exact this
    rw [addItemType, if_pos hmem]
    have hkeys : ((acc.map (fun e => if e.1 == itemTypeOf it then (e.1, e.2.1, e.2.2 + 1) else e)).map
        Prod.fst) = acc.map Prod.fst := by
      rw [List.map_map]
      refine List.map_congr_left fun e _ => ?_
      by_cases hc : e.1 = itemTypeOf it <;> simp [hc]
    refine ⟨by rw [hkeys]; exact hnd, ?_, ?_, ?_⟩
    · intro e' he'
      rw [List.mem_map] at he'
      obtain ⟨e, he, hed⟩ := he'
      obtain ⟨h1, h2, h3⟩ := hent e he
      by_cases hc : e.1 = itemTypeOf it
      · have hcb : (e.1 == itemTypeOf it) = true := by simp [hc]
        rw [← hed]
        simp only [hcb, if_true]
        refine ⟨?_, ?_, ?_⟩
        · rw [List.any_append, h1, Bool.true_or]
        · rw [findIdx_append_found _ _ _ h1, h2]
        · rw [List.countP_append, h3]
          have : (fun x => itemTypeOf x == e.1) it = true := by
            simp only [beq_iff_eq]
            rw [hc]
          simp [List.countP_cons, this]
      · have hcb : (e.1 == itemTypeOf it) = false := by simp [hc]
        rw [← hed]
        simp only [hcb, Bool.false_eq_true, if_false]
        refine ⟨?_, ?_, ?_⟩
        · rw [List.any_append, h1, Bool.true_or]
        · rw [findIdx_append_found _ _ _ h1, h2]
        · rw [List.countP_append, h3]
          have : (fun x => itemTypeOf x == e.1) it = false := by
            simp only [beq_eq_false_iff_ne, ne_eq]
            intro hc2
            exact hc (by rw [← hc2])
          simp [List.countP_cons, this]
    · intro t ht
      rw [hkeys]
      rw [List.any_append, Bool.or_eq_true] at ht
      rcases ht with h | h
      · exact hcov t h
      · have : itemTypeOf it = t := by
          simp only [List.any_cons, List.any_nil, Bool.or_false, beq_iff_eq] at h
          exact h
        rw [← this]
        exact hkey
    · rw [sum_bump (itemTypeOf it) acc hnd hkey, hsum, List.length_append, List.length_cons,
        List.length_nil]
  · -- new type: an entry with the current index and count 1 is appended
    have hnotkey : itemTypeOf it ∉ acc.map Prod.fst := by
      intro hc
      rw [List.mem_map] at hc
      obtain ⟨e, he, hed⟩ := hc
      have : acc.any (fun e => e.1 == itemTypeOf it) = true := by
        rw [List.any_eq_true]
        exact ⟨e, he, by simp [hed]⟩
      exact hmem this
    have hnotP : P.any (fun x => itemTypeOf x == itemTypeOf it) = false := by
      rw [Bool.eq_false_iff]
      intro hc
      exact hnotkey (hcov _ hc)
    rw [addItemType, if_neg hmem]
    refine ⟨?_, ?_, ?_, ?_⟩
    · rw [List.map_append]
      rw [List.nodup_append]
      refine ⟨hnd, by simp, ?_⟩
      intro a ha hb
      simp only [List.map_cons, List.map_nil, List.mem_cons, List.not_mem_nil, or_false] at hb
      rw [hb] at ha
      exact hnotkey ha
    · intro e' he'
      rw [List.mem_append] at he'
      rcases he' with he | he
      · obtain ⟨h1, h2, h3⟩ := hent e' he
        have hne : (fun x => itemTypeOf x == e'.1) it = false := by
          simp only [beq_eq_false_iff_ne, ne_eq]
          intro hc
          refine hnotkey ?_
          rw [hc]
          exact List.mem_map_of_mem Prod.fst he
        refine ⟨?_, ?_, ?_⟩
        · rw [List.any_append, h1, Bool.true_or]
        · rw [findIdx_append_found _ _ _ h1, h2]
        · rw [List.countP_append, h3]
          simp [List.countP_cons, hne]
      · simp only [List.mem_cons, List.not_mem_nil, or_false] at he
        rw [he]
        have hit : (fun x => itemTypeOf x == itemTypeOf it) it = true := by simp
        refine ⟨?_, ?_, ?_⟩
        · rw [List.any_append]
          simp [hit]
        · rw [findIdx_append_not_found _ _ _ hnotP]
          simp [List.findIdx_cons, hit]
        · rw [List.countP_append]
          have hzero : P.countP (fun x => itemTypeOf x == itemTypeOf it) = 0 := by
            rw [List.countP_eq_zero]
            intro a ha hc
            have hany : P.any (fun x => itemTypeOf x == itemTypeOf it) = true :=
              List.any_eq_true.mpr ⟨a, ha, hc⟩
            rw [hany] at hnotP
            simp at hnotP
          rw [hzero]
          simp [List.countP_cons, hit]
    · intro t ht
      rw [List.any_append, Bool.or_eq_true] at ht
      rcases ht with h | h
      · rw [List.map_append, List.mem_append]
        exact Or.inl (hcov t h)
      · have : itemTypeOf it = t := by
          simp only [List.any_cons, List.any_nil, Bool.or_false, beq_iff_eq] at h
          exact h
        rw [List.map_append, List.mem_append]
        right
        simp [← this]
    · rw [List.map_append, List.sum_append, hsum, List.length_append]
      simp

theorem buildTypeEntries_spec : ∀ (rest P : List MapItem) (acc : List (Int × Nat × Nat)),
    EntriesSpec P acc → EntriesSpec (P ++ rest) (buildTypeEntries acc P.length rest) := by
  intro rest
  induction rest with
  | nil =>
    intro P acc h
    simpa [buildTypeEntries] using h
  | cons it rest ih =>
    intro P acc h
    have h2 := addItemType_spec P acc it h
    have h3 := ih (P ++ [it]) (addItemType acc (itemTypeOf it) P.length) h2
    have hlen : (P ++ [it]).length = P.length + 1 := by simp
    rw [hlen] at h3
    have hassoc : (P ++ [it]) ++ rest = P ++ (it :: rest) := by simp
    rw [hassoc] at h3
    exact h3

theorem entries_spec_full (items : List MapItem) :
    EntriesSpec items (buildTypeEntries [] 0 items) := by
  have h := buildTypeEntries_spec items [] []
    ⟨List.nodup_nil, by simp, by simp, rfl⟩
  simpa using h

theorem runs_countP_zero (t : Int) : ∀ (runs : List (Int × List MapItem)),
    (∀ r ∈ runs, ∀ x ∈ r.2, itemTypeOf x = r.1) → t ∉ runs.map Prod.fst →
    (runs.flatMap Prod.snd).countP (fun x => itemTypeOf x == t) = 0 := by
  intro runs
  induction runs with
  | nil => intro _ _; rfl
  | cons r rs ih =>
    intro hconst hnot
    simp only [List.map_cons, List.mem_cons, not_or] at hnot
    simp only [List.flatMap_cons, List.countP_append]
    have h1 : r.2.countP (fun x => itemTypeOf x == t) = 0 := by
      rw [List.countP_eq_zero]
      intro x hx hc
      rw [beq_iff_eq] at hc
      have hx2 := hconst r (by simp) x hx
      exact hnot.1 (by rw [← hc, hx2])
    have h2 : (rs.flatMap Prod.snd).countP (fun x => itemTypeOf x == t) = 0 :=
      ih (fun r2 hr2 => hconst r2 (by simp [hr2])) hnot.2
    rw [h1, h2]

theorem runs_contiguous (t : Int) : ∀ (runs : List (Int × List MapItem)),
    (∀ r ∈ runs, r.2 ≠ [] ∧ ∀ x ∈ r.2, itemTypeOf x = r.1) →
    (runs.map Prod.fst).Nodup →
    ∀ j : Nat,
      (runs.flatMap Prod.snd).findIdx (fun x => itemTypeOf x == t) ≤ j →
      j < (runs.flatMap Prod.snd).findIdx (fun x => itemTypeOf x == t) +
        (runs.flatMap Prod.snd).countP (fun x => itemTypeOf x == t) →
      itemTypeOf ((runs.flatMap Prod.snd).getD j mapItemDefault) = t := by
  intro runs
  induction runs with
  | nil =>
    intro _ _ j h1 h2
    simp only [List.flatMap_nil, List.countP_nil, List.findIdx_nil] at h1 h2
    omega
  | cons r rs ih =>
    intro hconst hnd j h1 h2
    obtain ⟨hne, htyp⟩ := hconst r (by simp)
    simp only [List.map_cons, List.nodup_cons] at hnd
    by_cases hcase : r.1 = t
    · obtain ⟨m, ms, hm⟩ := List.exists_cons_of_ne_nil hne
      have hpm : (itemTypeOf m == t) = true := by
        simp only [beq_iff_eq]
        rw [htyp m (by rw [hm]; simp), hcase]
      have hfind : (r.2 ++ rs.flatMap Prod.snd).findIdx (fun x => itemTypeOf x == t) = 0 := by
        rw [hm, List.cons_append, List.findIdx_cons, hpm]
        rfl
      have hcnt_rs : (rs.flatMap Prod.snd).countP (fun x => itemTypeOf x == t) = 0 := by
        refine runs_countP_zero t rs (fun r2 hr2 => (hconst r2 (by simp [hr2])).2) ?_
        rw [← hcase]
        exact hnd.1
      have hcnt_run : r.2.countP (fun x => itemTypeOf x == t) = r.2.length := by
        rw [List.countP_eq_length]
        intro x hx
        simp only [beq_iff_eq]
        rw [htyp x hx, hcase]
      rw [List.flatMap_cons] at h1 h2 ⊢
      rw [hfind] at h1 h2
      rw [List.countP_append, hcnt_run, hcnt_rs] at h2
      have hj : j < r.2.length := by omega
      rw [getD_append_left_any _ _ _ _ hj]
      have hmem : r.2.getD j mapItemDefault ∈ r.2 := by
        rw [List.getD_eq_getElem r.2 mapItemDefault hj]
        exact List.getElem_mem hj
      rw [htyp _ hmem, hcase]
    · have hall : r.2.any (fun x => itemTypeOf x == t) = false := by
        rw [Bool.eq_false_iff]
        intro hc
        rw [List.any_eq_true] at hc
        obtain ⟨x, hx, hbx⟩ := hc
        rw [beq_iff_eq] at hbx
        exact hcase ((htyp x hx).symm.trans hbx)
      have hcnt0 : r.2.countP (fun x => itemTypeOf x == t) = 0 := by
        rw [List.countP_eq_zero]
        intro x hx hc
        rw [beq_iff_eq] at hc
        exact hcase ((htyp x hx).symm.trans hc)
      rw [List.flatMap_cons] at h1 h2 ⊢
      rw [findIdx_append_not_found _ _ _ hall] at h1 h2
      rw [List.countP_append, hcnt0] at h2
      have hj2 : j = r.2.length + (j - r.2.length) := by omega
      rw [hj2, getD_append_right_any]
      exact ih (fun r2 hr2 => hconst r2 (by simp [hr2])) hnd.2 (j - r.2.length)
        (by omega) (by omega)

theorem sum_map_natCast {α : Type} (f : α → Nat) (l : List α) :
    (l.map (fun x => ((f x : Nat) : Int))).sum = ((l.map f).sum : Int) := by
  induction l with
  | nil => rfl
  | cons a as ih => simp [ih]

/-- The run decomposition of the full prepared item list: the
synthesized Version and Info runs, the editor runs, then the
synthesized Envpoint run. -/
def extendRuns (runs : List (Int × List MapItem)) : List (Int × List MapItem) :=
  (0, [versionItem0]) :: (1, [infoItem0]) :: (runs ++ [(6, [envpointItem0])])

/-- C7 as amended: when the editor-supplied items are grouped
contiguously by typeId (their list is a concatenation of non-empty
constant-typed runs with pairwise-distinct typeIds) and use none of the
reserved types 0 (Version), 1 (Info) and 6 (Envpoint), the item-type
table produced by prepareMapData is strictly ascending by typeId, every
entry covers a contiguous run of items of exactly its type, entries of
different types cover disjoint index ranges, and the counts add up to
the number of items. -/
theorem c7_item_type_table (md : MapData) (runs : List (Int × List MapItem))
    (hdecomp : md.items = runs.flatMap Prod.snd)
    (hruns : ∀ r ∈ runs, r.2 ≠ [] ∧ ∀ x ∈ r.2, itemTypeOf x = r.1)
    (hnodup : (runs.map Prod.fst).Nodup)
    (hallowed : ∀ r ∈ runs, r.1 ≠ 0 ∧ r.1 ≠ 1 ∧ r.1 ≠ 6) :
    (prepareMapData md).itemTypes.Pairwise (fun a b => a.typeId < b.typeId) ∧
    (∀ e ∈ (prepareMapData md).itemTypes, ∀ j : Nat,
      e.start ≤ (j : Int) → (j : Int) < e.start + e.num →
      itemTypeOf ((prepareMapData md).items.getD j mapItemDefault) = e.typeId) ∧
    (∀ e1 ∈ (prepareMapData md).itemTypes, ∀ e2 ∈ (prepareMapData md).itemTypes,
      e1.typeId ≠ e2.typeId → ∀ j : Nat,
      e1.start ≤ (j : Int) → (j : Int) < e1.start + e1.num →
      ¬(e2.start ≤ (j : Int) ∧ (j : Int) < e2.start + e2.num)) ∧
    ((prepareMapData md).itemTypes.map (fun e => e.num)).sum =
      ((prepareMapData md).items.length : Int) := by
  have hitems : (prepareMapData md).items = (extendRuns runs).flatMap Prod.snd := by
    rw [prepareMapData_items, hdecomp]
    simp [extendRuns, List.flatMap_cons, List.flatMap_append]
  have hconstExt : ∀ r ∈ extendRuns runs, r.2 ≠ [] ∧ ∀ x ∈ r.2, itemTypeOf x = r.1 := by
    intro r hr
    simp only [extendRuns, List.mem_cons, List.mem_append] at hr
    rcases hr with rfl | rfl | hr | hr
    · refine ⟨by simp, ?_⟩
      intro x hx
      simp only [List.mem_cons, List.not_mem_nil, or_false] at hx
      rw [hx]
      decide
    · refine ⟨by simp, ?_⟩
      intro x hx
      simp only [List.mem_cons, List.not_mem_nil, or_false] at hx
      rw [hx]
      decide
    · exact hruns r hr
    · simp only [List.mem_cons, List.not_mem_nil, or_false] at hr
      rw [hr]
      refine ⟨by simp, ?_⟩
      intro x hx
      simp only [List.mem_cons, List.not_mem_nil, or_false] at hx
      rw [hx]
      decide
  have hkeys0 : ∀ k ∈ runs.map Prod.fst, k ≠ 0 ∧ k ≠ 1 ∧ k ≠ 6 := by
    intro k hk
    rw [List.mem_map] at hk
    obtain ⟨r, hr, hrk⟩ := hk
    rw [← hrk]
    exact hallowed r hr
  have hnodupExt : ((extendRuns runs).map Prod.fst).Nodup := by
    simp only [extendRuns, List.map_cons, List.map_append, List.map_nil]
    rw [List.nodup_cons, List.nodup_cons]
    refine ⟨?_, ?_, ?_⟩
    · intro hc
      simp only [List.mem_cons, List.mem_append, List.not_mem_nil, or_false] at hc
      rcases hc with hc | hc | hc
      · exact absurd hc (by norm_num)
      · exact (hkeys0 0 hc).1 rfl
      · exact absurd hc (by norm_num)
    · intro hc
      simp only [List.mem_append, List.not_mem_nil, or_false] at hc
      rcases hc with hc | hc
      · exact (hkeys0 1 hc).2.1 rfl
      · simp only [List.mem_cons, List.not_mem_nil, or_false] at hc
        exact absurd hc (by norm_num)
    · rw [List.nodup_append]
      refine ⟨hnodup, by simp, ?_⟩
      intro a ha hb
      simp only [List.mem_cons, List.not_mem_nil, or_false] at hb
      rw [hb] at ha
      exact (hkeys0 6 ha).2.2 rfl
  obtain ⟨hnd, hent, hcov, hsum⟩ := entries_spec_full (prepareMapData md).items
  haveI hTot : IsTotal (Int × Nat × Nat) (fun a b => a.1 ≤ b.1) :=
    ⟨fun a b => le_total a.1 b.1⟩
  haveI hTrans : IsTrans (Int × Nat × Nat) (fun a b => a.1 ≤ b.1) :=
    ⟨fun a b c hab hbc => le_trans hab hbc⟩
  have hperm := List.perm_insertionSort (fun (a b : Int × Nat × Nat) => a.1 ≤ b.1)
    (buildTypeEntries [] 0 (prepareMapData md).items)
  have hsorted := List.sorted_insertionSort (fun (a b : Int × Nat × Nat) => a.1 ≤ b.1)
    (buildTypeEntries [] 0 (prepareMapData md).items)
  have htable : (prepareMapData md).itemTypes =
      ((buildTypeEntries [] 0 (prepareMapData md).items).insertionSort
        (fun a b => a.1 ≤ b.1)).map
        (fun e => ({ typeId := e.1, start := (e.2.1 : Int), num := (e.2.2 : Int) } :
          ItemTypeInfo)) := rfl
  have hcontig : ∀ e ∈ (prepareMapData md).itemTypes, ∀ j : Nat,
      e.start ≤ (j : Int) → (j : Int) < e.start + e.num →
      itemTypeOf ((prepareMapData md).items.getD j mapItemDefault) = e.typeId := by
    intro e he j hj1 hj2
    rw [htable, List.mem_map] at he
    obtain ⟨e0, he0s, hee⟩ := he
    have he0 : e0 ∈ buildTypeEntries [] 0 (prepareMapData md).items := hperm.mem_iff.mp he0s
    obtain ⟨hany, hfi, hcp⟩ := hent e0 he0
    rw [← hee] at hj1 hj2 ⊢
    dsimp only at hj1 hj2 ⊢
    have hj1n : e0.2.1 ≤ j := by omega
    have hj2n : j < e0.2.1 + e0.2.2 := by omega
    have happly := runs_contiguous e0.1 (extendRuns runs) hconstExt hnodupExt j
    rw [← hitems] at happly
    exact happly (by rw [← hfi]; exact hj1n) (by rw [← hfi, ← hcp]; exact hj2n)
  have hpair : (prepareMapData md).itemTypes.Pairwise (fun a b => a.typeId < b.typeId) := by
    rw [htable, List.pairwise_map]
    have hnds : (((buildTypeEntries [] 0 (prepareMapData md).items).insertionSort
        (fun a b => a.1 ≤ b.1)).map Prod.fst).Nodup :=
      ((hperm.map Prod.fst).nodup_iff).mpr hnd
    have hne2 : ((buildTypeEntries [] 0 (prepareMapData md).items).insertionSort
        (fun a b => a.1 ≤ b.1)).Pairwise (fun a b => a.1 ≠ b.1) :=
      List.pairwise_map.mp hnds
    exact (List.Pairwise.and hsorted hne2).imp (fun h => lt_of_le_of_ne h.1 h.2)
  refine ⟨hpair, hcontig, ?_, ?_⟩
  · intro e1 he1 e2 he2 hne12 j hj1 hj2 hc
    have t1 := hcontig e1 he1 j hj1 hj2
    have t2 := hcontig e2 he2 j hc.1 hc.2
    exact hne12 (t1.symm.trans t2)
  · rw [htable, List.map_map]
    have hfun : ((fun e : ItemTypeInfo => e.num) ∘
        (fun e : Int × Nat × Nat =>
          ({ typeId := e.1, start := (e.2.1 : Int), num := (e.2.2 : Int) } : ItemTypeInfo))) =
        (fun e : Int × Nat × Nat => ((e.2.2 : Nat) : Int)) := rfl
    rw [hfun]
    rw [(hperm.map (fun e : Int × Nat × Nat => ((e.2.2 : Nat) : Int))).sum_eq]
    rw [sum_map_natCast (fun e : Int × Nat × Nat => e.2.2)]
    rw [hsum]

/-- The editor item list used by the C7 witness. -/
def mdC7w : MapData := { emptyMapData with items := [bareLayerItem 0, bareImageItem 7] }

/-- The run decomposition of the C7 witness input. -/
def runsC7w : List (Int × List MapItem) := [(5, [bareLayerItem 0]), (2, [bareImageItem 7])]

/-- C7 witness: the amended table claim evaluated on a grouped input
with one Layer run and one Image run. -/
theorem c7_item_type_table_witness :
    (prepareMapData mdC7w).itemTypes.Pairwise (fun a b => a.typeId < b.typeId) ∧
    (∀ e ∈ (prepareMapData mdC7w).itemTypes, ∀ j : Nat,
      e.start ≤ (j : Int) → (j : Int) < e.start + e.num →
      itemTypeOf ((prepareMapData mdC7w).items.getD j mapItemDefault) = e.typeId) ∧
    (∀ e1 ∈ (prepareMapData mdC7w).itemTypes, ∀ e2 ∈ (prepareMapData mdC7w).itemTypes,
      e1.typeId ≠ e2.typeId → ∀ j : Nat,
      e1.start ≤ (j : Int) → (j : Int) < e1.start + e1.num →
      ¬(e2.start ≤ (j : Int) ∧ (j : Int) < e2.start + e2.num)) ∧
    ((prepareMapData mdC7w).itemTypes.map (fun e => e.num)).sum =
      ((prepareMapData mdC7w).items.length : Int) :=
  c7_item_type_table mdC7w runsC7w (by rfl) (by decide) (by decide) (by decide)

end TwEditor
